import Mathlib

/-!
Shallow embedding of the market-depth component of liquibook
(`src/book/depth.h`, class `Depth<SIZE>`), together with proofs of the
specified properties.

The `Depth<SIZE>` state is an array of `2*SIZE` `DepthLevel` slots; indices
`0 .. SIZE-1` form the bid run and indices `SIZE .. 2*SIZE-1` the ask run.
We embed the state as a `List DepthLevel` of length `2*SIZE`; the C++
pointer ranges `bids() .. asks()` and `asks() .. end()` become
`s.take SIZE` and `s.drop SIZE`.

`DepthLevel` lives in `depth_level.h`, which is not part of the sources
given; it is modelled from the spec (section 4.1).  Prices and quantities
are unsigned integers in the repository (`base/types.h`, also absent) and
are modelled as `Nat`; the unused-slot sentinel `INVALID_LEVEL_PRICE` is 0,
the smallest price, matching the repository's published constants.
-/

namespace Liquibook

/- `Price` and `Quantity` are unsigned integer typedefs in the repository;
both are modelled as `Nat` throughout. -/

/-- Modelled from the spec: sentinel price marking an unused slot
(spec section 6: "an invalid/unused slot price sentinel").  The value 0 is
the repository's constant and is the minimum of the price domain. -/
def INVALID_LEVEL_PRICE : Nat := 0

/-- Modelled from the spec: reserved sort-order sentinel for resting market
orders on the bid side, used to anchor restoration when `SIZE = 1`. -/
def MARKET_ORDER_BID_SORT_PRICE : Nat := 4294967295

/-- Modelled from the spec: reserved sort-order sentinel for resting market
orders on the ask side, used to anchor restoration when `SIZE = 1`. -/
def MARKET_ORDER_ASK_SORT_PRICE : Nat := 0

/-- Modelled from the spec: `PriceLevel`/`DepthLevel` from `depth_level.h`
(not among the given sources).  It aggregates order count and quantity at
one price (spec section 3). -/
structure DepthLevel where
  price : Nat
  aggregate_qty : Nat
  order_count : Nat
deriving DecidableEq

namespace DepthLevel

/-- Modelled from the spec: "init(price): resets the slot to the given
price with zero aggregate quantity and zero order count." -/
def init (p : Nat) : DepthLevel := ⟨p, 0, 0⟩

/-- Modelled from the spec: "add_order(qty): records a new order's
quantity; increments order count." -/
def add_order (l : DepthLevel) (qty : Nat) : DepthLevel :=
  { l with aggregate_qty := l.aggregate_qty + qty,
           order_count := l.order_count + 1 }

/-- Modelled from the spec: "close_order(qty): removes one order's
quantity; decrements order count; returns true iff the level has no
remaining orders (count reaches zero)." -/
def close_order (l : DepthLevel) (qty : Nat) : Bool × DepthLevel :=
  let l' : DepthLevel :=
    { l with aggregate_qty := l.aggregate_qty - qty,
             order_count := l.order_count - 1 }
  (l'.order_count == 0, l')

/-- Modelled from the spec: "increase_qty(delta): adjust aggregate quantity
without changing order count." -/
def increase_qty (l : DepthLevel) (delta : Nat) : DepthLevel :=
  { l with aggregate_qty := l.aggregate_qty + delta }

/-- Modelled from the spec: "decrease_qty(delta): adjust aggregate quantity
without changing order count." -/
def decrease_qty (l : DepthLevel) (delta : Nat) : DepthLevel :=
  { l with aggregate_qty := l.aggregate_qty - delta }

end DepthLevel

/-- The all-zero slot produced by `memset` in the constructor; its price is
`INVALID_LEVEL_PRICE`, so it equals `DepthLevel.init INVALID_LEVEL_PRICE`. -/
def blankLevel : DepthLevel := DepthLevel.init INVALID_LEVEL_PRICE

/-- `Depth<SIZE>::find_bid(price, should_create)` on the bid run
(`depth.h` lines 315-341), embedded as a zipper: on success it returns
`(pre, lv, post)` where `pre` is the scanned prefix of the run (slots the
loop stepped over), `lv` the level the loop broke at (initialized to
`price` in the blank-slot and insert branches), and `post` the slots after
it; the updated run is `pre ++ lv :: post`.  The insert branch inlines
`insert_level_before(bid, last_bid_level(), price)` (lines 371-387): the
suffix from the break position loses its last slot and gains the new level
in front. -/
def find_bid (price : Nat) (should_create : Bool) :
    List DepthLevel → Option (List DepthLevel × DepthLevel × List DepthLevel)
  | [] => none
  | bid :: rest =>
    if bid.price = price then
      some ([], bid, rest)
    else if should_create = true ∧ bid.price = INVALID_LEVEL_PRICE then
      some ([], DepthLevel.init price, rest)
    else if should_create = true ∧ bid.price < price then
      some ([], DepthLevel.init price, (bid :: rest).dropLast)
    else
      match find_bid price should_create rest with
      | none => none
      | some (pre, lv, post) => some (bid :: pre, lv, post)

/-- `Depth<SIZE>::find_ask(price, should_create)` on the ask run
(`depth.h` lines 343-369); identical to `find_bid` except the insert test
is `ask->price() > price`. -/
def find_ask (price : Nat) (should_create : Bool) :
    List DepthLevel → Option (List DepthLevel × DepthLevel × List DepthLevel)
  | [] => none
  | ask :: rest =>
    if ask.price = price then
      some ([], ask, rest)
    else if should_create = true ∧ ask.price = INVALID_LEVEL_PRICE then
      some ([], DepthLevel.init price, rest)
    else if should_create = true ∧ price < ask.price then
      some ([], DepthLevel.init price, (ask :: rest).dropLast)
    else
      match find_ask price should_create rest with
      | none => none
      | some (pre, lv, post) => some (ask :: pre, lv, post)

/-- `Depth<SIZE>::add_bid` restricted to the bid run (lines 181-189):
find with create, then `level->add_order(qty)`. -/
def add_bid_run (price : Nat) (qty : Nat) (run : List DepthLevel) :
    List DepthLevel :=
  match find_bid price true run with
  | none => run
  | some (pre, lv, post) => pre ++ lv.add_order qty :: post

/-- `Depth<SIZE>::close_bid` restricted to the bid run (lines 191-203):
find without create; if found and `close_order` reports the level empty,
`erase_level(level, last_bid_level())` (lines 389-403) shifts the suffix
one slot toward the front and blanks the last slot of the run. -/
def close_bid_run (price : Nat) (qty : Nat) (run : List DepthLevel) :
    Bool × List DepthLevel :=
  match find_bid price false run with
  | none => (false, run)
  | some (pre, lv, post) =>
    match lv.close_order qty with
    | (true, _) => (true, pre ++ post ++ [blankLevel])
    | (false, lv') => (false, pre ++ lv' :: post)

/-- `Depth<SIZE>::increase_bid` restricted to the bid run (lines 205-214). -/
def increase_bid_run (price : Nat) (qty : Nat) (run : List DepthLevel) :
    List DepthLevel :=
  match find_bid price false run with
  | none => run
  | some (pre, lv, post) => pre ++ lv.increase_qty qty :: post

/-- `Depth<SIZE>::decrease_bid` restricted to the bid run (lines 216-225). -/
def decrease_bid_run (price : Nat) (qty : Nat) (run : List DepthLevel) :
    List DepthLevel :=
  match find_bid price false run with
  | none => run
  | some (pre, lv, post) => pre ++ lv.decrease_qty qty :: post

/-- `Depth<SIZE>::add_ask` restricted to the ask run (lines 227-235). -/
def add_ask_run (price : Nat) (qty : Nat) (run : List DepthLevel) :
    List DepthLevel :=
  match find_ask price true run with
  | none => run
  | some (pre, lv, post) => pre ++ lv.add_order qty :: post

/-- `Depth<SIZE>::close_ask` restricted to the ask run (lines 237-249). -/
def close_ask_run (price : Nat) (qty : Nat) (run : List DepthLevel) :
    Bool × List DepthLevel :=
  match find_ask price false run with
  | none => (false, run)
  | some (pre, lv, post) =>
    match lv.close_order qty with
    | (true, _) => (true, pre ++ post ++ [blankLevel])
    | (false, lv') => (false, pre ++ lv' :: post)

/-- `Depth<SIZE>::increase_ask` restricted to the ask run (lines 251-260). -/
def increase_ask_run (price : Nat) (qty : Nat) (run : List DepthLevel) :
    List DepthLevel :=
  match find_ask price false run with
  | none => run
  | some (pre, lv, post) => pre ++ lv.increase_qty qty :: post

/-- `Depth<SIZE>::decrease_ask` restricted to the ask run (lines 262-271). -/
def decrease_ask_run (price : Nat) (qty : Nat) (run : List DepthLevel) :
    List DepthLevel :=
  match find_ask price false run with
  | none => run
  | some (pre, lv, post) => pre ++ lv.decrease_qty qty :: post

namespace Depth

/-- The constructor `Depth<SIZE>::Depth()` (lines 111-115): `memset` of the
`2*SIZE` slots to zero. -/
def new (SIZE : Nat) : List DepthLevel :=
  List.replicate (2 * SIZE) blankLevel

/-- `Depth<SIZE>::add_bid` on the whole state: the scan ranges over slots
`0 .. SIZE-1` only (`past_end = asks()`). -/
def add_bid (SIZE : Nat) (price : Nat) (qty : Nat)
    (s : List DepthLevel) : List DepthLevel :=
  add_bid_run price qty (s.take SIZE) ++ s.drop SIZE

/-- `Depth<SIZE>::close_bid` on the whole state. -/
def close_bid (SIZE : Nat) (price : Nat) (qty : Nat)
    (s : List DepthLevel) : Bool × List DepthLevel :=
  let r := close_bid_run price qty (s.take SIZE)
  (r.1, r.2 ++ s.drop SIZE)

/-- `Depth<SIZE>::increase_bid` on the whole state. -/
def increase_bid (SIZE : Nat) (price : Nat) (qty : Nat)
    (s : List DepthLevel) : List DepthLevel :=
  increase_bid_run price qty (s.take SIZE) ++ s.drop SIZE

/-- `Depth<SIZE>::decrease_bid` on the whole state. -/
def decrease_bid (SIZE : Nat) (price : Nat) (qty : Nat)
    (s : List DepthLevel) : List DepthLevel :=
  decrease_bid_run price qty (s.take SIZE) ++ s.drop SIZE

/-- `Depth<SIZE>::add_ask` on the whole state: the scan ranges over slots
`SIZE .. 2*SIZE-1` only (`asks() .. end()`). -/
def add_ask (SIZE : Nat) (price : Nat) (qty : Nat)
    (s : List DepthLevel) : List DepthLevel :=
  s.take SIZE ++ add_ask_run price qty (s.drop SIZE)

/-- `Depth<SIZE>::close_ask` on the whole state. -/
def close_ask (SIZE : Nat) (price : Nat) (qty : Nat)
    (s : List DepthLevel) : Bool × List DepthLevel :=
  let r := close_ask_run price qty (s.drop SIZE)
  (r.1, s.take SIZE ++ r.2)

/-- `Depth<SIZE>::increase_ask` on the whole state. -/
def increase_ask (SIZE : Nat) (price : Nat) (qty : Nat)
    (s : List DepthLevel) : List DepthLevel :=
  s.take SIZE ++ increase_ask_run price qty (s.drop SIZE)

/-- `Depth<SIZE>::decrease_ask` on the whole state. -/
def decrease_ask (SIZE : Nat) (price : Nat) (qty : Nat)
    (s : List DepthLevel) : List DepthLevel :=
  s.take SIZE ++ decrease_ask_run price qty (s.drop SIZE)

/-- The price stored at slot `i` of the state (out-of-range reads return
the sentinel; all uses stay in range). -/
def priceAt (s : List DepthLevel) (i : Nat) : Nat :=
  (s.getD i blankLevel).price

/-- The slot at index `i` of the state. -/
def levelAt (s : List DepthLevel) (i : Nat) : DepthLevel :=
  s.getD i blankLevel

/-- `Depth<SIZE>::needs_bid_restoration` (lines 273-292).  The C++ throws
`std::runtime_error` for `SIZE < 1`; the embedding returns `Except.error`
there and otherwise `Except.ok (returned bool, restoration_price)`.
`(last_bid_level() - 1)->price()` is the price at slot `SIZE - 2`. -/
def needs_bid_restoration (SIZE : Nat) (s : List DepthLevel) :
    Except String (Bool × Nat) :=
  if 1 < SIZE then
    let restoration_price := priceAt s (SIZE - 2)
    .ok (restoration_price ≠ INVALID_LEVEL_PRICE, restoration_price)
  else if SIZE = 1 then
    .ok (true, MARKET_ORDER_BID_SORT_PRICE)
  else
    .error "Depth size less than one not allowed"

/-- `Depth<SIZE>::needs_ask_restoration` (lines 294-313).
`(last_ask_level() - 1)->price()` is the price at slot `2*SIZE - 2`. -/
def needs_ask_restoration (SIZE : Nat) (s : List DepthLevel) :
    Except String (Bool × Nat) :=
  if 1 < SIZE then
    let restoration_price := priceAt s (2 * SIZE - 2)
    .ok (restoration_price ≠ INVALID_LEVEL_PRICE, restoration_price)
  else if SIZE = 1 then
    .ok (true, MARKET_ORDER_ASK_SORT_PRICE)
  else
    .error "Depth size less than one not allowed"

end Depth

/-- One mutator call on a `Depth<SIZE>` instance. -/
inductive Op where
  | add_bid (price : Nat) (qty : Nat)
  | close_bid (price : Nat) (qty : Nat)
  | increase_bid (price : Nat) (qty : Nat)
  | decrease_bid (price : Nat) (qty : Nat)
  | add_ask (price : Nat) (qty : Nat)
  | close_ask (price : Nat) (qty : Nat)
  | increase_ask (price : Nat) (qty : Nat)
  | decrease_ask (price : Nat) (qty : Nat)
deriving DecidableEq

/-- Apply one mutator call to the state (the `bool` result of the close
calls is not part of the state). -/
def applyOp (SIZE : Nat) (op : Op) (s : List DepthLevel) : List DepthLevel :=
  match op with
  | .add_bid p q => Depth.add_bid SIZE p q s
  | .close_bid p q => (Depth.close_bid SIZE p q s).2
  | .increase_bid p q => Depth.increase_bid SIZE p q s
  | .decrease_bid p q => Depth.decrease_bid SIZE p q s
  | .add_ask p q => Depth.add_ask SIZE p q s
  | .close_ask p q => (Depth.close_ask SIZE p q s).2
  | .increase_ask p q => Depth.increase_ask SIZE p q s
  | .decrease_ask p q => Depth.decrease_ask SIZE p q s

/-- The state of a freshly constructed `Depth<SIZE>` after a sequence of
mutator calls. -/
def Depth.runOps (SIZE : Nat) (ops : List Op) : List DepthLevel :=
  ops.foldl (fun s op => applyOp SIZE op s) (Depth.new SIZE)

end Liquibook

namespace Liquibook

@[simp] theorem DepthLevel.price_init (p : Nat) :
    (DepthLevel.init p).price = p := rfl

@[simp] theorem DepthLevel.price_add_order (l : DepthLevel) (q : Nat) :
    (l.add_order q).price = l.price := rfl

@[simp] theorem DepthLevel.price_increase_qty (l : DepthLevel) (q : Nat) :
    (l.increase_qty q).price = l.price := rfl

@[simp] theorem DepthLevel.price_decrease_qty (l : DepthLevel) (q : Nat) :
    (l.decrease_qty q).price = l.price := rfl

@[simp] theorem DepthLevel.price_close_order (l : DepthLevel) (q : Nat) :
    (l.close_order q).2.price = l.price := rfl

@[simp] theorem blankLevel_price : blankLevel.price = INVALID_LEVEL_PRICE := rfl

theorem find_bid_length {p : Nat} {sc : Bool} {run pre post : List DepthLevel}
    {lv : DepthLevel} (h : find_bid p sc run = some (pre, lv, post)) :
    pre.length + (post.length + 1) = run.length := by
  induction run generalizing pre lv post with
  | nil => simp [find_bid] at h
  | cons bid rest ih =>
    simp only [find_bid] at h
    split_ifs at h with h1 h2 h3
    · simp only [Option.some.injEq, Prod.mk.injEq] at h
      obtain ⟨h4, h5, h6⟩ := h
      subst h4; subst h6
      simp
    · simp only [Option.some.injEq, Prod.mk.injEq] at h
      obtain ⟨h4, h5, h6⟩ := h
      subst h4; subst h6
      simp
    · simp only [Option.some.injEq, Prod.mk.injEq] at h
      obtain ⟨h4, h5, h6⟩ := h
      subst h4; subst h6
      simp [List.length_dropLast]
    · cases hf : find_bid p sc rest with
      | none => rw [hf] at h; simp at h
      | some trip =>
        obtain ⟨pre', lv', post'⟩ := trip
        rw [hf] at h
        simp only [Option.some.injEq, Prod.mk.injEq] at h
        obtain ⟨h4, h5, h6⟩ := h
        subst h4; subst h6
        have := ih hf
        simp only [List.length_cons]
        omega

end Liquibook

namespace Liquibook

theorem find_bid_price {p : Nat} {sc : Bool} {run pre post : List DepthLevel}
    {lv : DepthLevel} (h : find_bid p sc run = some (pre, lv, post)) :
    lv.price = p := by
  induction run generalizing pre lv post with
  | nil => simp [find_bid] at h
  | cons bid rest ih =>
    simp only [find_bid] at h
    split_ifs at h with h1 h2 h3
    · simp only [Option.some.injEq, Prod.mk.injEq] at h
      obtain ⟨h4, h5, h6⟩ := h
      subst h5; exact h1
    · simp only [Option.some.injEq, Prod.mk.injEq] at h
      obtain ⟨h4, h5, h6⟩ := h
      subst h5; simp
    · simp only [Option.some.injEq, Prod.mk.injEq] at h
      obtain ⟨h4, h5, h6⟩ := h
      subst h5; simp
    · cases hf : find_bid p sc rest with
      | none => rw [hf] at h; simp at h
      | some trip =>
        obtain ⟨pre', lv', post'⟩ := trip
        rw [hf] at h
        simp only [Option.some.injEq, Prod.mk.injEq] at h
        obtain ⟨h4, h5, h6⟩ := h
        subst h5; exact ih hf

theorem find_bid_mem {p : Nat} {sc : Bool} {run pre post : List DepthLevel}
    {lv : DepthLevel} (h : find_bid p sc run = some (pre, lv, post)) :
    ∀ x ∈ pre ++ post, x ∈ run := by
  induction run generalizing pre lv post with
  | nil => simp [find_bid] at h
  | cons bid rest ih =>
    simp only [find_bid] at h
    split_ifs at h with h1 h2 h3
    · simp only [Option.some.injEq, Prod.mk.injEq] at h
      obtain ⟨h4, h5, h6⟩ := h
      subst h4; subst h6
      intro x hx
      simp only [List.nil_append] at hx
      exact List.mem_cons_of_mem bid hx
    · simp only [Option.some.injEq, Prod.mk.injEq] at h
      obtain ⟨h4, h5, h6⟩ := h
      subst h4; subst h6
      intro x hx
      simp only [List.nil_append] at hx
      exact List.mem_cons_of_mem bid hx
    · simp only [Option.some.injEq, Prod.mk.injEq] at h
      obtain ⟨h4, h5, h6⟩ := h
      subst h4; subst h6
      intro x hx
      simp only [List.nil_append] at hx
      exact (List.dropLast_sublist (bid :: rest)).subset hx
    · cases hf : find_bid p sc rest with
      | none => rw [hf] at h; simp at h
      | some trip =>
        obtain ⟨pre', lv', post'⟩ := trip
        rw [hf] at h
        simp only [Option.some.injEq, Prod.mk.injEq] at h
        obtain ⟨h4, h5, h6⟩ := h
        subst h4; subst h6
        intro x hx
        simp only [List.cons_append, List.mem_cons] at hx
        rcases hx with rfl | hx
        · exact List.mem_cons_self x rest
        · exact List.mem_cons_of_mem bid (ih hf x hx)

theorem find_bid_scanned {p : Nat} {sc : Bool} {run pre post : List DepthLevel}
    {lv : DepthLevel} (h : find_bid p sc run = some (pre, lv, post)) :
    ∀ x ∈ pre, x.price ≠ p ∧
      (sc = true → x.price ≠ INVALID_LEVEL_PRICE ∧ ¬ x.price < p) := by
  induction run generalizing pre lv post with
  | nil => simp [find_bid] at h
  | cons bid rest ih =>
    simp only [find_bid] at h
    split_ifs at h with h1 h2 h3
    · simp only [Option.some.injEq, Prod.mk.injEq] at h
      obtain ⟨h4, h5, h6⟩ := h
      subst h4; intro x hx; simp at hx
    · simp only [Option.some.injEq, Prod.mk.injEq] at h
      obtain ⟨h4, h5, h6⟩ := h
      subst h4; intro x hx; simp at hx
    · simp only [Option.some.injEq, Prod.mk.injEq] at h
      obtain ⟨h4, h5, h6⟩ := h
      subst h4; intro x hx; simp at hx
    · cases hf : find_bid p sc rest with
      | none => rw [hf] at h; simp at h
      | some trip =>
        obtain ⟨pre', lv', post'⟩ := trip
        rw [hf] at h
        simp only [Option.some.injEq, Prod.mk.injEq] at h
        obtain ⟨h4, h5, h6⟩ := h
        subst h4
        intro x hx
        rcases List.mem_cons.mp hx with rfl | hx
        · refine ⟨h1, fun hsc => ⟨fun h0 => h2 ⟨hsc, h0⟩, fun hlt => h3 ⟨hsc, hlt⟩⟩⟩
        · exact ih hf x hx

theorem find_bid_false_eq {p : Nat} {run pre post : List DepthLevel}
    {lv : DepthLevel} (h : find_bid p false run = some (pre, lv, post)) :
    run = pre ++ lv :: post := by
  induction run generalizing pre lv post with
  | nil => simp [find_bid] at h
  | cons bid rest ih =>
    simp only [find_bid, Bool.false_eq_true, false_and, if_false] at h
    split_ifs at h with h1
    · simp only [Option.some.injEq, Prod.mk.injEq] at h
      obtain ⟨h4, h5, h6⟩ := h
      subst h4; subst h5; subst h6
      simp
    · cases hf : find_bid p false rest with
      | none => rw [hf] at h; simp at h
      | some trip =>
        obtain ⟨pre', lv', post'⟩ := trip
        rw [hf] at h
        simp only [Option.some.injEq, Prod.mk.injEq] at h
        obtain ⟨h4, h5, h6⟩ := h
        subst h4; subst h5; subst h6
        simp [ih hf]

theorem find_bid_none {p : Nat} {sc : Bool} {run : List DepthLevel}
    (hall : ∀ x ∈ run, x.price ≠ p ∧
      (sc = true → x.price ≠ INVALID_LEVEL_PRICE ∧ ¬ x.price < p)) :
    find_bid p sc run = none := by
  induction run with
  | nil => simp [find_bid]
  | cons bid rest ih =>
    have hbid := hall bid (List.mem_cons_self bid rest)
    simp only [find_bid]
    rw [if_neg hbid.1, if_neg, if_neg]
    · rw [ih fun x hx => hall x (List.mem_cons_of_mem bid hx)]
    · rintro ⟨hsc, hlt⟩
      exact (hbid.2 hsc).2 hlt
    · rintro ⟨hsc, h0⟩
      exact (hbid.2 hsc).1 h0

theorem find_bid_first {p : Nat} {sc : Bool} {run pre post : List DepthLevel}
    {lv : DepthLevel} (hrun : run = pre ++ lv :: post) (hlv : lv.price = p)
    (hpre : ∀ x ∈ pre, x.price ≠ p ∧
      (sc = true → x.price ≠ INVALID_LEVEL_PRICE ∧ ¬ x.price < p)) :
    find_bid p sc run = some (pre, lv, post) := by
  induction pre generalizing run with
  | nil =>
    subst hrun
    simp [find_bid, hlv]
  | cons x pre' ih =>
    subst hrun
    have hx := hpre x (List.mem_cons_self x pre')
    simp only [List.cons_append, find_bid]
    rw [if_neg hx.1, if_neg, if_neg]
    · have h2 := ih rfl fun y hy => hpre y (List.mem_cons_of_mem x hy)
      simp only [List.append_eq]
      rw [h2]
    · rintro ⟨hsc, hlt⟩
      exact (hx.2 hsc).2 hlt
    · rintro ⟨hsc, h0⟩
      exact (hx.2 hsc).1 h0

end Liquibook

namespace Liquibook

theorem find_ask_length {p : Nat} {sc : Bool} {run pre post : List DepthLevel}
    {lv : DepthLevel} (h : find_ask p sc run = some (pre, lv, post)) :
    pre.length + (post.length + 1) = run.length := by
  induction run generalizing pre lv post with
  | nil => simp [find_ask] at h
  | cons ask rest ih =>
    simp only [find_ask] at h
    split_ifs at h with h1 h2 h3
    · simp only [Option.some.injEq, Prod.mk.injEq] at h
      obtain ⟨h4, h5, h6⟩ := h
      subst h4; subst h6
      simp
    · simp only [Option.some.injEq, Prod.mk.injEq] at h
      obtain ⟨h4, h5, h6⟩ := h
      subst h4; subst h6
      simp
    · simp only [Option.some.injEq, Prod.mk.injEq] at h
      obtain ⟨h4, h5, h6⟩ := h
      subst h4; subst h6
      simp [List.length_dropLast]
    · cases hf : find_ask p sc rest with
      | none => rw [hf] at h; simp at h
      | some trip =>
        obtain ⟨pre', lv', post'⟩ := trip
        rw [hf] at h
        simp only [Option.some.injEq, Prod.mk.injEq] at h
        obtain ⟨h4, h5, h6⟩ := h
        subst h4; subst h6
        have := ih hf
        simp only [List.length_cons]
        omega

theorem find_ask_price {p : Nat} {sc : Bool} {run pre post : List DepthLevel}
    {lv : DepthLevel} (h : find_ask p sc run = some (pre, lv, post)) :
    lv.price = p := by
  induction run generalizing pre lv post with
  | nil => simp [find_ask] at h
  | cons ask rest ih =>
    simp only [find_ask] at h
    split_ifs at h with h1 h2 h3
    · simp only [Option.some.injEq, Prod.mk.injEq] at h
      obtain ⟨h4, h5, h6⟩ := h
      subst h5; exact h1
    · simp only [Option.some.injEq, Prod.mk.injEq] at h
      obtain ⟨h4, h5, h6⟩ := h
      subst h5; simp
    · simp only [Option.some.injEq, Prod.mk.injEq] at h
      obtain ⟨h4, h5, h6⟩ := h
      subst h5; simp
    · cases hf : find_ask p sc rest with
      | none => rw [hf] at h; simp at h
      | some trip =>
        obtain ⟨pre', lv', post'⟩ := trip
        rw [hf] at h
        simp only [Option.some.injEq, Prod.mk.injEq] at h
        obtain ⟨h4, h5, h6⟩ := h
        subst h5; exact ih hf

theorem find_ask_mem {p : Nat} {sc : Bool} {run pre post : List DepthLevel}
    {lv : DepthLevel} (h : find_ask p sc run = some (pre, lv, post)) :
    ∀ x ∈ pre ++ post, x ∈ run := by
  induction run generalizing pre lv post with
  | nil => simp [find_ask] at h
  | cons ask rest ih =>
    simp only [find_ask] at h
    split_ifs at h with h1 h2 h3
    · simp only [Option.some.injEq, Prod.mk.injEq] at h
      obtain ⟨h4, h5, h6⟩ := h
      subst h4; subst h6
      intro x hx
      simp only [List.nil_append] at hx
      exact List.mem_cons_of_mem ask hx
    · simp only [Option.some.injEq, Prod.mk.injEq] at h
      obtain ⟨h4, h5, h6⟩ := h
      subst h4; subst h6
      intro x hx
      simp only [List.nil_append] at hx
      exact List.mem_cons_of_mem ask hx
    · simp only [Option.some.injEq, Prod.mk.injEq] at h
      obtain ⟨h4, h5, h6⟩ := h
      subst h4; subst h6
      intro x hx
      simp only [List.nil_append] at hx
      exact (List.dropLast_sublist (ask :: rest)).subset hx
    · cases hf : find_ask p sc rest with
      | none => rw [hf] at h; simp at h
      | some trip =>
        obtain ⟨pre', lv', post'⟩ := trip
        rw [hf] at h
        simp only [Option.some.injEq, Prod.mk.injEq] at h
        obtain ⟨h4, h5, h6⟩ := h
        subst h4; subst h6
        intro x hx
        simp only [List.cons_append, List.mem_cons] at hx
        rcases hx with rfl | hx
        · exact List.mem_cons_self x rest
        · exact List.mem_cons_of_mem ask (ih hf x hx)

theorem find_ask_scanned {p : Nat} {sc : Bool} {run pre post : List DepthLevel}
    {lv : DepthLevel} (h : find_ask p sc run = some (pre, lv, post)) :
    ∀ x ∈ pre, x.price ≠ p ∧
      (sc = true → x.price ≠ INVALID_LEVEL_PRICE ∧ ¬ p < x.price) := by
  induction run generalizing pre lv post with
  | nil => simp [find_ask] at h
  | cons ask rest ih =>
    simp only [find_ask] at h
    split_ifs at h with h1 h2 h3
    · simp only [Option.some.injEq, Prod.mk.injEq] at h
      obtain ⟨h4, h5, h6⟩ := h
      subst h4; intro x hx; simp at hx
    · simp only [Option.some.injEq, Prod.mk.injEq] at h
      obtain ⟨h4, h5, h6⟩ := h
      subst h4; intro x hx; simp at hx
    · simp only [Option.some.injEq, Prod.mk.injEq] at h
      obtain ⟨h4, h5, h6⟩ := h
      subst h4; intro x hx; simp at hx
    · cases hf : find_ask p sc rest with
      | none => rw [hf] at h; simp at h
      | some trip =>
        obtain ⟨pre', lv', post'⟩ := trip
        rw [hf] at h
        simp only [Option.some.injEq, Prod.mk.injEq] at h
        obtain ⟨h4, h5, h6⟩ := h
        subst h4
        intro x hx
        rcases List.mem_cons.mp hx with rfl | hx
        · refine ⟨h1, fun hsc => ⟨fun h0 => h2 ⟨hsc, h0⟩, fun hlt => h3 ⟨hsc, hlt⟩⟩⟩
        · exact ih hf x hx

theorem find_ask_false_eq {p : Nat} {run pre post : List DepthLevel}
    {lv : DepthLevel} (h : find_ask p false run = some (pre, lv, post)) :
    run = pre ++ lv :: post := by
  induction run generalizing pre lv post with
  | nil => simp [find_ask] at h
  | cons ask rest ih =>
    simp only [find_ask, Bool.false_eq_true, false_and, if_false] at h
    split_ifs at h with h1
    · simp only [Option.some.injEq, Prod.mk.injEq] at h
      obtain ⟨h4, h5, h6⟩ := h
      subst h4; subst h5; subst h6
      simp
    · cases hf : find_ask p false rest with
      | none => rw [hf] at h; simp at h
      | some trip =>
        obtain ⟨pre', lv', post'⟩ := trip
        rw [hf] at h
        simp only [Option.some.injEq, Prod.mk.injEq] at h
        obtain ⟨h4, h5, h6⟩ := h
        subst h4; subst h5; subst h6
        simp [ih hf]

theorem find_ask_none {p : Nat} {sc : Bool} {run : List DepthLevel}
    (hall : ∀ x ∈ run, x.price ≠ p ∧
      (sc = true → x.price ≠ INVALID_LEVEL_PRICE ∧ ¬ p < x.price)) :
    find_ask p sc run = none := by
  induction run with
  | nil => simp [find_ask]
  | cons ask rest ih =>
    have hbid := hall ask (List.mem_cons_self ask rest)
    simp only [find_ask]
    rw [if_neg hbid.1, if_neg, if_neg]
    · rw [ih fun x hx => hall x (List.mem_cons_of_mem ask hx)]
    · rintro ⟨hsc, hlt⟩
      exact (hbid.2 hsc).2 hlt
    · rintro ⟨hsc, h0⟩
      exact (hbid.2 hsc).1 h0

theorem find_ask_first {p : Nat} {sc : Bool} {run pre post : List DepthLevel}
    {lv : DepthLevel} (hrun : run = pre ++ lv :: post) (hlv : lv.price = p)
    (hpre : ∀ x ∈ pre, x.price ≠ p ∧
      (sc = true → x.price ≠ INVALID_LEVEL_PRICE ∧ ¬ p < x.price)) :
    find_ask p sc run = some (pre, lv, post) := by
  induction pre generalizing run with
  | nil =>
    subst hrun
    simp [find_ask, hlv]
  | cons x pre' ih =>
    subst hrun
    have hx := hpre x (List.mem_cons_self x pre')
    simp only [List.cons_append, find_ask]
    rw [if_neg hx.1, if_neg, if_neg]
    · have h2 := ih rfl fun y hy => hpre y (List.mem_cons_of_mem x hy)
      simp only [List.append_eq]
      rw [h2]
    · rintro ⟨hsc, hlt⟩
      exact (hx.2 hsc).2 hlt
    · rintro ⟨hsc, h0⟩
      exact (hx.2 hsc).1 h0


end Liquibook

namespace Liquibook

/-- Adjacent-slot order of the bid run: the later slot is blank or holds a
strictly lower price.  Because the sentinel is the minimum price, a blank
slot can only be followed by blank slots under this relation. -/
def bidOk (a b : DepthLevel) : Prop :=
  b.price = INVALID_LEVEL_PRICE ∨ b.price < a.price

/-- Adjacent-slot order of the ask run: the later slot is blank, or the
earlier slot is occupied and holds a strictly lower price. -/
def askOk (a b : DepthLevel) : Prop :=
  b.price = INVALID_LEVEL_PRICE ∨
    (a.price ≠ INVALID_LEVEL_PRICE ∧ a.price < b.price)

theorem pairwise_mid_congr {R : DepthLevel → DepthLevel → Prop}
    (hl : ∀ a b c, b.price = c.price → R a b → R a c)
    (hr : ∀ a b c, b.price = c.price → R b a → R c a)
    {pre post : List DepthLevel} {lv lv' : DepthLevel} (hp : lv'.price = lv.price)
    (h : List.Pairwise R (pre ++ lv :: post)) :
    List.Pairwise R (pre ++ lv' :: post) := by
  rw [List.pairwise_append] at h ⊢
  obtain ⟨h1, h2, h3⟩ := h
  rw [List.pairwise_cons] at h2
  refine ⟨h1, ?_, ?_⟩
  · rw [List.pairwise_cons]
    exact ⟨fun y hy => hr y lv lv' hp.symm (h2.1 y hy), h2.2⟩
  · intro x hx y hy
    rcases List.mem_cons.mp hy with rfl | hy'
    · exact hl x lv y hp.symm (h3 x hx lv (List.mem_cons_self lv post))
    · exact h3 x hx y (List.mem_cons_of_mem lv hy')

theorem pairwise_mid_erase {R : DepthLevel → DepthLevel → Prop}
    (h0 : ∀ a, R a blankLevel)
    {pre post : List DepthLevel} {lv : DepthLevel}
    (h : List.Pairwise R (pre ++ lv :: post)) :
    List.Pairwise R (pre ++ post ++ [blankLevel]) := by
  have hsub : List.Sublist (pre ++ post) (pre ++ lv :: post) :=
    (List.sublist_cons_self lv post).append_left pre
  have h1 : List.Pairwise R (pre ++ post) := h.sublist hsub
  rw [List.pairwise_append]
  refine ⟨h1, List.pairwise_singleton R blankLevel, ?_⟩
  intro x hx y hy
  rcases List.mem_singleton.mp hy with rfl
  exact h0 x

theorem find_bid_create_pairwise {p : Nat} {run pre post : List DepthLevel}
    {lv : DepthLevel} (hinv : List.Pairwise bidOk run)
    (h : find_bid p true run = some (pre, lv, post)) :
    List.Pairwise bidOk (pre ++ lv :: post) := by
  induction run generalizing pre lv post with
  | nil => simp [find_bid] at h
  | cons bid rest ih =>
    rw [List.pairwise_cons] at hinv
    obtain ⟨hhead, htail⟩ := hinv
    simp only [find_bid] at h
    split_ifs at h with h1 h2 h3
    · simp only [Option.some.injEq, Prod.mk.injEq] at h
      obtain ⟨h4, h5, h6⟩ := h
      subst h4; subst h5; subst h6
      simp only [List.nil_append]
      exact List.pairwise_cons.mpr ⟨hhead, htail⟩
    · simp only [Option.some.injEq, Prod.mk.injEq] at h
      obtain ⟨h4, h5, h6⟩ := h
      subst h4; subst h5; subst h6
      simp only [List.nil_append]
      refine List.pairwise_cons.mpr ⟨?_, htail⟩
      intro y hy
      left
      have hmem := hhead y hy
      have hb0 : bid.price = 0 := h2.2
      simp only [bidOk, INVALID_LEVEL_PRICE] at hmem ⊢
      omega
    · simp only [Option.some.injEq, Prod.mk.injEq] at h
      obtain ⟨h4, h5, h6⟩ := h
      subst h4; subst h5; subst h6
      simp only [List.nil_append]
      refine List.pairwise_cons.mpr ⟨?_, ?_⟩
      · intro y hy
        have hy' := (List.dropLast_sublist (bid :: rest)).subset hy
        rcases List.mem_cons.mp hy' with rfl | hy''
        · right
          simpa using h3.2
        · have := hhead y hy''
          simp only [bidOk, INVALID_LEVEL_PRICE] at this ⊢
          rcases this with h5 | h5
          · left; exact h5
          · right
            simp only [DepthLevel.price_init]
            have hlt : bid.price < p := h3.2
            omega
      · exact (List.pairwise_cons.mpr ⟨hhead, htail⟩).sublist
          (List.dropLast_sublist (bid :: rest))
    · cases hf : find_bid p true rest with
      | none => rw [hf] at h; simp at h
      | some trip =>
        obtain ⟨pre', lv', post'⟩ := trip
        rw [hf] at h
        simp only [Option.some.injEq, Prod.mk.injEq] at h
        obtain ⟨h4, h5, h6⟩ := h
        subst h4; subst h5; subst h6
        simp only [List.cons_append]
        refine List.pairwise_cons.mpr ⟨?_, ih htail hf⟩
        intro y hy
        rcases List.mem_append.mp hy with hy1 | hy2
        · exact hhead y (find_bid_mem hf y (List.mem_append_left _ hy1))
        · rcases List.mem_cons.mp hy2 with rfl | hy3
          · right
            have hp : y.price = p := find_bid_price hf
            have hne : bid.price ≠ p := h1
            have hnlt : ¬ bid.price < p := fun hc => h3 ⟨trivial, hc⟩
            rw [hp]
            omega
          · exact hhead y (find_bid_mem hf y (List.mem_append_right _ hy3))

theorem find_ask_create_pairwise {p : Nat} {run pre post : List DepthLevel}
    {lv : DepthLevel} (hp : p ≠ INVALID_LEVEL_PRICE)
    (hinv : List.Pairwise askOk run)
    (h : find_ask p true run = some (pre, lv, post)) :
    List.Pairwise askOk (pre ++ lv :: post) := by
  induction run generalizing pre lv post with
  | nil => simp [find_ask] at h
  | cons ask rest ih =>
    rw [List.pairwise_cons] at hinv
    obtain ⟨hhead, htail⟩ := hinv
    simp only [find_ask] at h
    split_ifs at h with h1 h2 h3
    · simp only [Option.some.injEq, Prod.mk.injEq] at h
      obtain ⟨h4, h5, h6⟩ := h
      subst h4; subst h5; subst h6
      simp only [List.nil_append]
      exact List.pairwise_cons.mpr ⟨hhead, htail⟩
    · simp only [Option.some.injEq, Prod.mk.injEq] at h
      obtain ⟨h4, h5, h6⟩ := h
      subst h4; subst h5; subst h6
      simp only [List.nil_append]
      refine List.pairwise_cons.mpr ⟨?_, htail⟩
      intro y hy
      left
      have := hhead y hy
      have h2' := h2.2
      simp only [askOk, INVALID_LEVEL_PRICE] at this ⊢
      rcases this with h5 | h5
      · exact h5
      · exact absurd h2' h5.1
    · simp only [Option.some.injEq, Prod.mk.injEq] at h
      obtain ⟨h4, h5, h6⟩ := h
      subst h4; subst h5; subst h6
      simp only [List.nil_append]
      refine List.pairwise_cons.mpr ⟨?_, ?_⟩
      · intro y hy
        have hy' := (List.dropLast_sublist (ask :: rest)).subset hy
        rcases List.mem_cons.mp hy' with rfl | hy''
        · right
          exact ⟨by simpa using hp, by simpa using h3.2⟩
        · have := hhead y hy''
          simp only [askOk, INVALID_LEVEL_PRICE] at this ⊢
          rcases this with h5 | h5
          · left; exact h5
          · right
            simp only [DepthLevel.price_init]
            have h3' : p < ask.price := h3.2
            obtain ⟨ha0, hlt⟩ := h5
            constructor
            · simpa [INVALID_LEVEL_PRICE] using hp
            · omega
      · exact (List.pairwise_cons.mpr ⟨hhead, htail⟩).sublist
          (List.dropLast_sublist (ask :: rest))
    · cases hf : find_ask p true rest with
      | none => rw [hf] at h; simp at h
      | some trip =>
        obtain ⟨pre', lv', post'⟩ := trip
        rw [hf] at h
        simp only [Option.some.injEq, Prod.mk.injEq] at h
        obtain ⟨h4, h5, h6⟩ := h
        subst h4; subst h5; subst h6
        simp only [List.cons_append]
        refine List.pairwise_cons.mpr ⟨?_, ih htail hf⟩
        intro y hy
        rcases List.mem_append.mp hy with hy1 | hy2
        · exact hhead y (find_ask_mem hf y (List.mem_append_left _ hy1))
        · rcases List.mem_cons.mp hy2 with rfl | hy3
          · right
            have hyp : y.price = p := find_ask_price hf
            have hne : ask.price ≠ p := h1
            have hnlt : ¬ p < ask.price := fun hc => h3 ⟨trivial, hc⟩
            have h0 : ask.price ≠ INVALID_LEVEL_PRICE := fun hc => h2 ⟨trivial, hc⟩
            rw [hyp]
            refine ⟨h0, ?_⟩
            have hne' : ask.price ≠ p := hne
            omega
          · exact hhead y (find_ask_mem hf y (List.mem_append_right _ hy3))

end Liquibook

namespace Liquibook

theorem bidOk_congr_left :
    ∀ a b c : DepthLevel, b.price = c.price → bidOk a b → bidOk a c := by
  intro a b c h hb
  simp only [bidOk, INVALID_LEVEL_PRICE] at hb ⊢
  omega

theorem bidOk_congr_right :
    ∀ a b c : DepthLevel, b.price = c.price → bidOk b a → bidOk c a := by
  intro a b c h hb
  simp only [bidOk, INVALID_LEVEL_PRICE] at hb ⊢
  omega

theorem askOk_congr_left :
    ∀ a b c : DepthLevel, b.price = c.price → askOk a b → askOk a c := by
  intro a b c h hb
  simp only [askOk, INVALID_LEVEL_PRICE] at hb ⊢
  omega

theorem askOk_congr_right :
    ∀ a b c : DepthLevel, b.price = c.price → askOk b a → askOk c a := by
  intro a b c h hb
  simp only [askOk, INVALID_LEVEL_PRICE] at hb ⊢
  omega

theorem bidOk_blank (a : DepthLevel) : bidOk a blankLevel := Or.inl rfl

theorem askOk_blank (a : DepthLevel) : askOk a blankLevel := Or.inl rfl

theorem close_order_snd_price (lv lv' : DepthLevel) {b : Bool} {q : Nat}
    (h : lv.close_order q = (b, lv')) : lv'.price = lv.price := by
  have : lv' = (lv.close_order q).2 := by rw [h]
  rw [this]
  simp

theorem add_bid_run_length (p q : Nat) (run : List DepthLevel) :
    (add_bid_run p q run).length = run.length := by
  unfold add_bid_run
  cases hf : find_bid p true run with
  | none => rfl
  | some trip =>
    obtain ⟨pre, lv, post⟩ := trip
    have := find_bid_length hf
    simp only [List.length_append, List.length_cons]
    omega

theorem close_bid_run_length (p q : Nat) (run : List DepthLevel) :
    (close_bid_run p q run).2.length = run.length := by
  rcases hf : find_bid p false run with _ | ⟨pre, lv, post⟩
  · simp [close_bid_run, hf]
  · have hl := find_bid_length hf
    rcases hco : lv.close_order q with ⟨b, lv2⟩
    cases b
    · simp only [close_bid_run, hf, hco, List.length_append, List.length_cons]
      omega
    · simp only [close_bid_run, hf, hco, List.length_append, List.length_cons,
        List.length_nil]
      omega

theorem increase_bid_run_length (p q : Nat) (run : List DepthLevel) :
    (increase_bid_run p q run).length = run.length := by
  unfold increase_bid_run
  cases hf : find_bid p false run with
  | none => rfl
  | some trip =>
    obtain ⟨pre, lv, post⟩ := trip
    have := find_bid_length hf
    simp only [List.length_append, List.length_cons]
    omega

theorem decrease_bid_run_length (p q : Nat) (run : List DepthLevel) :
    (decrease_bid_run p q run).length = run.length := by
  unfold decrease_bid_run
  cases hf : find_bid p false run with
  | none => rfl
  | some trip =>
    obtain ⟨pre, lv, post⟩ := trip
    have := find_bid_length hf
    simp only [List.length_append, List.length_cons]
    omega

theorem add_ask_run_length (p q : Nat) (run : List DepthLevel) :
    (add_ask_run p q run).length = run.length := by
  unfold add_ask_run
  cases hf : find_ask p true run with
  | none => rfl
  | some trip =>
    obtain ⟨pre, lv, post⟩ := trip
    have := find_ask_length hf
    simp only [List.length_append, List.length_cons]
    omega

theorem close_ask_run_length (p q : Nat) (run : List DepthLevel) :
    (close_ask_run p q run).2.length = run.length := by
  rcases hf : find_ask p false run with _ | ⟨pre, lv, post⟩
  · simp [close_ask_run, hf]
  · have hl := find_ask_length hf
    rcases hco : lv.close_order q with ⟨b, lv2⟩
    cases b
    · simp only [close_ask_run, hf, hco, List.length_append, List.length_cons]
      omega
    · simp only [close_ask_run, hf, hco, List.length_append, List.length_cons,
        List.length_nil]
      omega

theorem increase_ask_run_length (p q : Nat) (run : List DepthLevel) :
    (increase_ask_run p q run).length = run.length := by
  unfold increase_ask_run
  cases hf : find_ask p false run with
  | none => rfl
  | some trip =>
    obtain ⟨pre, lv, post⟩ := trip
    have := find_ask_length hf
    simp only [List.length_append, List.length_cons]
    omega

theorem decrease_ask_run_length (p q : Nat) (run : List DepthLevel) :
    (decrease_ask_run p q run).length = run.length := by
  unfold decrease_ask_run
  cases hf : find_ask p false run with
  | none => rfl
  | some trip =>
    obtain ⟨pre, lv, post⟩ := trip
    have := find_ask_length hf
    simp only [List.length_append, List.length_cons]
    omega

theorem add_bid_run_pairwise {p q : Nat} {run : List DepthLevel}
    (h : List.Pairwise bidOk run) :
    List.Pairwise bidOk (add_bid_run p q run) := by
  unfold add_bid_run
  cases hf : find_bid p true run with
  | none => exact h
  | some trip =>
    obtain ⟨pre, lv, post⟩ := trip
    exact pairwise_mid_congr bidOk_congr_left bidOk_congr_right
      (DepthLevel.price_add_order lv q) (find_bid_create_pairwise h hf)

theorem add_ask_run_pairwise {p q : Nat} {run : List DepthLevel}
    (hp : p ≠ INVALID_LEVEL_PRICE) (h : List.Pairwise askOk run) :
    List.Pairwise askOk (add_ask_run p q run) := by
  unfold add_ask_run
  cases hf : find_ask p true run with
  | none => exact h
  | some trip =>
    obtain ⟨pre, lv, post⟩ := trip
    exact pairwise_mid_congr askOk_congr_left askOk_congr_right
      (DepthLevel.price_add_order lv q) (find_ask_create_pairwise hp h hf)

theorem close_bid_run_pairwise {p q : Nat} {run : List DepthLevel}
    (h : List.Pairwise bidOk run) :
    List.Pairwise bidOk (close_bid_run p q run).2 := by
  rcases hf : find_bid p false run with _ | ⟨pre, lv, post⟩
  · simp only [close_bid_run, hf]
    exact h
  · have heq := find_bid_false_eq hf
    rcases hco : lv.close_order q with ⟨b, lv2⟩
    cases b
    · simp only [close_bid_run, hf, hco]
      exact pairwise_mid_congr bidOk_congr_left bidOk_congr_right
        (close_order_snd_price lv lv2 hco) (heq ▸ h)
    · simp only [close_bid_run, hf, hco]
      exact pairwise_mid_erase bidOk_blank (heq ▸ h)

theorem close_ask_run_pairwise {p q : Nat} {run : List DepthLevel}
    (h : List.Pairwise askOk run) :
    List.Pairwise askOk (close_ask_run p q run).2 := by
  rcases hf : find_ask p false run with _ | ⟨pre, lv, post⟩
  · simp only [close_ask_run, hf]
    exact h
  · have heq := find_ask_false_eq hf
    rcases hco : lv.close_order q with ⟨b, lv2⟩
    cases b
    · simp only [close_ask_run, hf, hco]
      exact pairwise_mid_congr askOk_congr_left askOk_congr_right
        (close_order_snd_price lv lv2 hco) (heq ▸ h)
    · simp only [close_ask_run, hf, hco]
      exact pairwise_mid_erase askOk_blank (heq ▸ h)

theorem increase_bid_run_pairwise {p q : Nat} {run : List DepthLevel}
    (h : List.Pairwise bidOk run) :
    List.Pairwise bidOk (increase_bid_run p q run) := by
  unfold increase_bid_run
  cases hf : find_bid p false run with
  | none => exact h
  | some trip =>
    obtain ⟨pre, lv, post⟩ := trip
    have heq := find_bid_false_eq hf
    exact pairwise_mid_congr bidOk_congr_left bidOk_congr_right
      (DepthLevel.price_increase_qty lv q) (heq ▸ h)

theorem decrease_bid_run_pairwise {p q : Nat} {run : List DepthLevel}
    (h : List.Pairwise bidOk run) :
    List.Pairwise bidOk (decrease_bid_run p q run) := by
  unfold decrease_bid_run
  cases hf : find_bid p false run with
  | none => exact h
  | some trip =>
    obtain ⟨pre, lv, post⟩ := trip
    have heq := find_bid_false_eq hf
    exact pairwise_mid_congr bidOk_congr_left bidOk_congr_right
      (DepthLevel.price_decrease_qty lv q) (heq ▸ h)

theorem increase_ask_run_pairwise {p q : Nat} {run : List DepthLevel}
    (h : List.Pairwise askOk run) :
    List.Pairwise askOk (increase_ask_run p q run) := by
  unfold increase_ask_run
  cases hf : find_ask p false run with
  | none => exact h
  | some trip =>
    obtain ⟨pre, lv, post⟩ := trip
    have heq := find_ask_false_eq hf
    exact pairwise_mid_congr askOk_congr_left askOk_congr_right
      (DepthLevel.price_increase_qty lv q) (heq ▸ h)

theorem decrease_ask_run_pairwise {p q : Nat} {run : List DepthLevel}
    (h : List.Pairwise askOk run) :
    List.Pairwise askOk (decrease_ask_run p q run) := by
  unfold decrease_ask_run
  cases hf : find_ask p false run with
  | none => exact h
  | some trip =>
    obtain ⟨pre, lv, post⟩ := trip
    have heq := find_ask_false_eq hf
    exact pairwise_mid_congr askOk_congr_left askOk_congr_right
      (DepthLevel.price_decrease_qty lv q) (heq ▸ h)

end Liquibook

namespace Liquibook

/-- Well-formedness invariant of a `Depth<SIZE>` state: the state has the
fixed `2*SIZE` slots, the bid run satisfies the adjacent `bidOk` order and
the ask run the adjacent `askOk` order.  Together these give the sort and
contiguity invariants of the spec. -/
def Inv (SIZE : Nat) (s : List DepthLevel) : Prop :=
  s.length = 2 * SIZE ∧
    List.Pairwise bidOk (s.take SIZE) ∧ List.Pairwise askOk (s.drop SIZE)

/-- Restriction on a mutator call: add calls do not use the unused-slot
sentinel as their price.  (The close/increase/decrease calls are
unrestricted.) -/
def opOk : Op → Prop
  | .add_bid p _ => p ≠ INVALID_LEVEL_PRICE
  | .add_ask p _ => p ≠ INVALID_LEVEL_PRICE
  | _ => True

theorem take_append_of_length {r d : List DepthLevel} {SIZE : Nat}
    (h : r.length = SIZE) : (r ++ d).take SIZE = r := by
  rw [← h]
  exact List.take_left r d

theorem drop_append_of_length {r d : List DepthLevel} {SIZE : Nat}
    (h : r.length = SIZE) : (r ++ d).drop SIZE = d := by
  rw [← h]
  exact List.drop_left r d

theorem length_take_run {s : List DepthLevel} {SIZE : Nat}
    (h : s.length = 2 * SIZE) : (s.take SIZE).length = SIZE := by
  simp [List.length_take, h]
  omega

theorem length_drop_run {s : List DepthLevel} {SIZE : Nat}
    (h : s.length = 2 * SIZE) : (s.drop SIZE).length = SIZE := by
  simp [List.length_drop, h]
  omega

theorem applyOp_inv {SIZE : Nat} {op : Op} {s : List DepthLevel}
    (hop : opOk op) (h : Inv SIZE s) : Inv SIZE (applyOp SIZE op s) := by
  obtain ⟨hlen, hB, hA⟩ := h
  have htake : (s.take SIZE).length = SIZE := length_take_run hlen
  have hdrop : (s.drop SIZE).length = SIZE := length_drop_run hlen
  cases op with
  | add_bid p q =>
    have hrl : (add_bid_run p q (s.take SIZE)).length = SIZE := by
      rw [add_bid_run_length]; exact htake
    refine ⟨?_, ?_, ?_⟩
    · simp only [applyOp, Depth.add_bid, List.length_append, hrl, hdrop]; omega
    · rw [applyOp]
      unfold Depth.add_bid
      rw [take_append_of_length hrl]
      exact add_bid_run_pairwise hB
    · rw [applyOp]
      unfold Depth.add_bid
      rw [drop_append_of_length hrl]
      exact hA
  | close_bid p q =>
    have hrl : (close_bid_run p q (s.take SIZE)).2.length = SIZE := by
      rw [close_bid_run_length]; exact htake
    refine ⟨?_, ?_, ?_⟩
    · simp only [applyOp, Depth.close_bid, List.length_append, hrl, hdrop]; omega
    · rw [applyOp]
      unfold Depth.close_bid
      rw [take_append_of_length hrl]
      exact close_bid_run_pairwise hB
    · rw [applyOp]
      unfold Depth.close_bid
      rw [drop_append_of_length hrl]
      exact hA
  | increase_bid p q =>
    have hrl : (increase_bid_run p q (s.take SIZE)).length = SIZE := by
      rw [increase_bid_run_length]; exact htake
    refine ⟨?_, ?_, ?_⟩
    · simp only [applyOp, Depth.increase_bid, List.length_append, hrl, hdrop]; omega
    · rw [applyOp]
      unfold Depth.increase_bid
      rw [take_append_of_length hrl]
      exact increase_bid_run_pairwise hB
    · rw [applyOp]
      unfold Depth.increase_bid
      rw [drop_append_of_length hrl]
      exact hA
  | decrease_bid p q =>
    have hrl : (decrease_bid_run p q (s.take SIZE)).length = SIZE := by
      rw [decrease_bid_run_length]; exact htake
    refine ⟨?_, ?_, ?_⟩
    · simp only [applyOp, Depth.decrease_bid, List.length_append, hrl, hdrop]; omega
    · rw [applyOp]
      unfold Depth.decrease_bid
      rw [take_append_of_length hrl]
      exact decrease_bid_run_pairwise hB
    · rw [applyOp]
      unfold Depth.decrease_bid
      rw [drop_append_of_length hrl]
      exact hA
  | add_ask p q =>
    refine ⟨?_, ?_, ?_⟩
    · simp only [applyOp, Depth.add_ask, List.length_append, add_ask_run_length,
        htake, hdrop]
      omega
    · rw [applyOp]
      unfold Depth.add_ask
      rw [take_append_of_length htake]
      exact hB
    · rw [applyOp]
      unfold Depth.add_ask
      rw [drop_append_of_length htake]
      exact add_ask_run_pairwise hop hA
  | close_ask p q =>
    refine ⟨?_, ?_, ?_⟩
    · simp only [applyOp, Depth.close_ask, List.length_append, close_ask_run_length,
        htake, hdrop]
      omega
    · rw [applyOp]
      unfold Depth.close_ask
      rw [take_append_of_length htake]
      exact hB
    · rw [applyOp]
      unfold Depth.close_ask
      rw [drop_append_of_length htake]
      exact close_ask_run_pairwise hA
  | increase_ask p q =>
    refine ⟨?_, ?_, ?_⟩
    · simp only [applyOp, Depth.increase_ask, List.length_append,
        increase_ask_run_length, htake, hdrop]
      omega
    · rw [applyOp]
      unfold Depth.increase_ask
      rw [take_append_of_length htake]
      exact hB
    · rw [applyOp]
      unfold Depth.increase_ask
      rw [drop_append_of_length htake]
      exact increase_ask_run_pairwise hA
  | decrease_ask p q =>
    refine ⟨?_, ?_, ?_⟩
    · simp only [applyOp, Depth.decrease_ask, List.length_append,
        decrease_ask_run_length, htake, hdrop]
      omega
    · rw [applyOp]
      unfold Depth.decrease_ask
      rw [take_append_of_length htake]
      exact hB
    · rw [applyOp]
      unfold Depth.decrease_ask
      rw [drop_append_of_length htake]
      exact decrease_ask_run_pairwise hA

theorem pairwise_blank_replicate {R : DepthLevel → DepthLevel → Prop}
    (hR : R blankLevel blankLevel) (n : Nat) :
    List.Pairwise R (List.replicate n blankLevel) := by
  induction n with
  | zero => simp
  | succ m ih =>
    rw [List.replicate_succ]
    refine List.pairwise_cons.mpr ⟨fun y hy => ?_, ih⟩
    rw [List.eq_of_mem_replicate hy]
    exact hR

theorem new_inv (SIZE : Nat) : Inv SIZE (Depth.new SIZE) := by
  refine ⟨by simp [Depth.new], ?_, ?_⟩
  · unfold Depth.new
    rw [List.take_replicate]
    exact pairwise_blank_replicate (bidOk_blank blankLevel) _
  · unfold Depth.new
    rw [List.drop_replicate]
    exact pairwise_blank_replicate (askOk_blank blankLevel) _

theorem foldl_inv {SIZE : Nat} (ops : List Op) :
    ∀ s, Inv SIZE s → (∀ op ∈ ops, opOk op) →
      Inv SIZE (ops.foldl (fun t op => applyOp SIZE op t) s) := by
  induction ops with
  | nil => intro s h _; exact h
  | cons op rest ih =>
    intro s h hops
    rw [List.foldl_cons]
    exact ih _ (applyOp_inv (hops op (List.mem_cons_self op rest)) h)
      fun o ho => hops o (List.mem_cons_of_mem op ho)

theorem runOps_inv (SIZE : Nat) (ops : List Op)
    (hops : ∀ op ∈ ops, opOk op) : Inv SIZE (Depth.runOps SIZE ops) :=
  foldl_inv ops (Depth.new SIZE) (new_inv SIZE) hops

theorem pairwise_getD {R : DepthLevel → DepthLevel → Prop}
    {l : List DepthLevel} (h : List.Pairwise R l) {i j : Nat}
    (hij : i < j) (hj : j < l.length) :
    R (l.getD i blankLevel) (l.getD j blankLevel) := by
  have hi : i < l.length := lt_trans hij hj
  rw [List.getD_eq_getElem l blankLevel hi, List.getD_eq_getElem l blankLevel hj]
  exact List.pairwise_iff_getElem.mp h i j hi hj hij

theorem getD_take {s : List DepthLevel} {SIZE i : Nat} (hi : i < SIZE) :
    (s.take SIZE).getD i blankLevel = s.getD i blankLevel := by
  by_cases hlen : i < s.length
  · have h1 : i < (s.take SIZE).length := by
      simp [List.length_take]
      omega
    rw [List.getD_eq_getElem _ blankLevel h1, List.getD_eq_getElem _ blankLevel hlen]
    exact List.getElem_take s
  · rw [List.getD_eq_default _ blankLevel (by simp [List.length_take]; omega),
      List.getD_eq_default _ blankLevel (by omega)]

theorem getD_drop (s : List DepthLevel) (k i : Nat) :
    (s.drop k).getD i blankLevel = s.getD (k + i) blankLevel := by
  by_cases hlen : k + i < s.length
  · have h1 : i < (s.drop k).length := by
      simp [List.length_drop]
      omega
    rw [List.getD_eq_getElem _ blankLevel h1, List.getD_eq_getElem _ blankLevel hlen]
    exact List.getElem_drop s
  · rw [List.getD_eq_default _ blankLevel (by simp [List.length_drop]; omega),
      List.getD_eq_default _ blankLevel (by omega)]

theorem priceAt_take {s : List DepthLevel} {SIZE i : Nat} (hi : i < SIZE) :
    Depth.priceAt (s.take SIZE) i = Depth.priceAt s i := by
  unfold Depth.priceAt
  rw [getD_take hi]

theorem priceAt_drop (s : List DepthLevel) (k i : Nat) :
    Depth.priceAt (s.drop k) i = Depth.priceAt s (k + i) := by
  unfold Depth.priceAt
  rw [getD_drop]

end Liquibook

namespace Liquibook

instance opOk_decidable : DecidablePred opOk := fun op =>
  match op with
  | .add_bid p _ => inferInstanceAs (Decidable (p ≠ INVALID_LEVEL_PRICE))
  | .close_bid _ _ => inferInstanceAs (Decidable True)
  | .increase_bid _ _ => inferInstanceAs (Decidable True)
  | .decrease_bid _ _ => inferInstanceAs (Decidable True)
  | .add_ask p _ => inferInstanceAs (Decidable (p ≠ INVALID_LEVEL_PRICE))
  | .close_ask _ _ => inferInstanceAs (Decidable True)
  | .increase_ask _ _ => inferInstanceAs (Decidable True)
  | .decrease_ask _ _ => inferInstanceAs (Decidable True)

theorem inv_bid_pair {SIZE : Nat} {s : List DepthLevel} (h : Inv SIZE s)
    {i j : Nat} (hij : i < j) (hj : j < SIZE) :
    Depth.priceAt s j = INVALID_LEVEL_PRICE ∨
      Depth.priceAt s j < Depth.priceAt s i := by
  obtain ⟨hlen, hB, hA⟩ := h
  have hjl : j < (s.take SIZE).length := by rw [length_take_run hlen]; exact hj
  have hp := pairwise_getD hB hij hjl
  have e1 : ((s.take SIZE).getD i blankLevel).price = Depth.priceAt s i := by
    rw [Depth.priceAt, getD_take (lt_trans hij hj)]
  have e2 : ((s.take SIZE).getD j blankLevel).price = Depth.priceAt s j := by
    rw [Depth.priceAt, getD_take hj]
  rw [bidOk, e1, e2] at hp
  exact hp

theorem inv_ask_pair {SIZE : Nat} {s : List DepthLevel} (h : Inv SIZE s)
    {i j : Nat} (hi : SIZE ≤ i) (hij : i < j) (hj : j < 2 * SIZE) :
    Depth.priceAt s j = INVALID_LEVEL_PRICE ∨
      (Depth.priceAt s i ≠ INVALID_LEVEL_PRICE ∧
        Depth.priceAt s i < Depth.priceAt s j) := by
  obtain ⟨hlen, hB, hA⟩ := h
  have hjl : j - SIZE < (s.drop SIZE).length := by
    rw [length_drop_run hlen]; omega
  have hp := pairwise_getD hA (show i - SIZE < j - SIZE by omega) hjl
  have e1 : ((s.drop SIZE).getD (i - SIZE) blankLevel).price = Depth.priceAt s i := by
    rw [Depth.priceAt, getD_drop]
    have : SIZE + (i - SIZE) = i := by omega
    rw [this]
  have e2 : ((s.drop SIZE).getD (j - SIZE) blankLevel).price = Depth.priceAt s j := by
    rw [Depth.priceAt, getD_drop]
    have : SIZE + (j - SIZE) = j := by omega
    rw [this]
  rw [askOk, e1, e2] at hp
  exact hp

/-- C1: after any finite sequence of mutator calls on a freshly constructed
`Depth<SIZE>` (`SIZE ≥ 1`) in which no add call uses the sentinel price,
the valid (non-sentinel) prices of the bid run (slots `0 .. SIZE-1`) are
strictly decreasing and the valid prices of the ask run (slots
`SIZE .. 2*SIZE-1`) are strictly increasing, so no price occurs twice
within a run.  (The proviso on add calls is forced by
`C1_counterexample`.) -/
theorem C1_sort_invariant (SIZE : Nat) (hSIZE : 1 ≤ SIZE) (ops : List Op)
    (hops : ∀ op ∈ ops, opOk op) :
    (∀ i j : Nat, i < j → j < SIZE →
        Depth.priceAt (Depth.runOps SIZE ops) i ≠ INVALID_LEVEL_PRICE →
        Depth.priceAt (Depth.runOps SIZE ops) j ≠ INVALID_LEVEL_PRICE →
        Depth.priceAt (Depth.runOps SIZE ops) j <
            Depth.priceAt (Depth.runOps SIZE ops) i ∧
          Depth.priceAt (Depth.runOps SIZE ops) i ≠
            Depth.priceAt (Depth.runOps SIZE ops) j) ∧
    (∀ i j : Nat, SIZE ≤ i → i < j → j < 2 * SIZE →
        Depth.priceAt (Depth.runOps SIZE ops) i ≠ INVALID_LEVEL_PRICE →
        Depth.priceAt (Depth.runOps SIZE ops) j ≠ INVALID_LEVEL_PRICE →
        Depth.priceAt (Depth.runOps SIZE ops) i <
            Depth.priceAt (Depth.runOps SIZE ops) j ∧
          Depth.priceAt (Depth.runOps SIZE ops) i ≠
            Depth.priceAt (Depth.runOps SIZE ops) j) := by
  have hinv := runOps_inv SIZE ops hops
  constructor
  · intro i j hij hj hvi hvj
    have := inv_bid_pair hinv hij hj
    simp only [INVALID_LEVEL_PRICE] at this hvi hvj
    omega
  · intro i j hi hij hj hvi hvj
    have := inv_ask_pair hinv hi hij hj
    simp only [INVALID_LEVEL_PRICE] at this hvi hvj
    omega

/-- Witness for C1 at `SIZE = 2` with two bid adds and two ask adds: the
resulting runs are strictly ordered the right way. -/
theorem C1_sort_invariant_witness :
    (∀ op ∈ ([.add_bid 5 1, .add_bid 7 1, .add_ask 6 1, .add_ask 4 1] : List Op),
        opOk op) ∧
    Depth.priceAt
        (Depth.runOps 2 [.add_bid 5 1, .add_bid 7 1, .add_ask 6 1, .add_ask 4 1]) 1 <
      Depth.priceAt
        (Depth.runOps 2 [.add_bid 5 1, .add_bid 7 1, .add_ask 6 1, .add_ask 4 1]) 0 ∧
    Depth.priceAt
        (Depth.runOps 2 [.add_bid 5 1, .add_bid 7 1, .add_ask 6 1, .add_ask 4 1]) 2 <
      Depth.priceAt
        (Depth.runOps 2 [.add_bid 5 1, .add_bid 7 1, .add_ask 6 1, .add_ask 4 1]) 3 :=
  ⟨by decide,
    ((C1_sort_invariant 2 (by omega) _ (by decide)).1 0 1 (by omega) (by omega)
      (by decide) (by decide)).1,
    ((C1_sort_invariant 2 (by omega) _ (by decide)).2 2 3 (by omega) (by omega)
      (by omega) (by decide) (by decide)).1⟩

/-- Counterexample to C1 as frozen: with sentinel-priced adds allowed,
`add_ask 7`, `add_ask 0`, `add_ask 9` on a fresh `Depth<2>` leaves the ask
run prices `[9, 7]` — both valid, but decreasing instead of increasing.
(`add_ask(0, 1)` hits the `ask->price() > price` insert branch of
`find_ask` and inserts the sentinel price itself in front of 7; the
sentinel slot is then treated as blank and overwritten by 9.) -/
theorem C1_counterexample :
    Depth.priceAt (Depth.runOps 2 [.add_ask 7 1, .add_ask 0 1, .add_ask 9 1]) 2 = 9 ∧
    Depth.priceAt (Depth.runOps 2 [.add_ask 7 1, .add_ask 0 1, .add_ask 9 1]) 3 = 7 ∧
    (9 : Nat) ≠ INVALID_LEVEL_PRICE ∧ (7 : Nat) ≠ INVALID_LEVEL_PRICE ∧
    ¬ Depth.priceAt (Depth.runOps 2 [.add_ask 7 1, .add_ask 0 1, .add_ask 9 1]) 2 <
        Depth.priceAt (Depth.runOps 2 [.add_ask 7 1, .add_ask 0 1, .add_ask 9 1]) 3 := by
  decide

/-- C2: after any finite sequence of mutator calls on a freshly constructed
`Depth<SIZE>` in which no add call uses the sentinel price, within each run
the non-sentinel slots form a contiguous run-initial segment: a slot after
a sentinel slot of the same run is itself sentinel.  (The proviso on add
calls is forced by `C2_counterexample`.) -/
theorem C2_contiguity_invariant (SIZE : Nat) (hSIZE : 1 ≤ SIZE) (ops : List Op)
    (hops : ∀ op ∈ ops, opOk op) :
    (∀ i j : Nat, i < j → j < SIZE →
        Depth.priceAt (Depth.runOps SIZE ops) i = INVALID_LEVEL_PRICE →
        Depth.priceAt (Depth.runOps SIZE ops) j = INVALID_LEVEL_PRICE) ∧
    (∀ i j : Nat, SIZE ≤ i → i < j → j < 2 * SIZE →
        Depth.priceAt (Depth.runOps SIZE ops) i = INVALID_LEVEL_PRICE →
        Depth.priceAt (Depth.runOps SIZE ops) j = INVALID_LEVEL_PRICE) := by
  have hinv := runOps_inv SIZE ops hops
  constructor
  · intro i j hij hj h0
    have := inv_bid_pair hinv hij hj
    simp only [INVALID_LEVEL_PRICE] at this h0 ⊢
    omega
  · intro i j hi hij hj h0
    have := inv_ask_pair hinv hi hij hj
    simp only [INVALID_LEVEL_PRICE] at this h0 ⊢
    omega

/-- Witness for C2 at `SIZE = 2`: after one bid add and one ask add the
second slot of each run is still sentinel. -/
theorem C2_contiguity_invariant_witness :
    (∀ op ∈ ([.add_bid 5 1, .close_bid 5 1, .add_ask 6 2] : List Op), opOk op) ∧
    Depth.priceAt (Depth.runOps 2 [.add_bid 5 1, .close_bid 5 1, .add_ask 6 2]) 0 =
      INVALID_LEVEL_PRICE ∧
    Depth.priceAt (Depth.runOps 2 [.add_bid 5 1, .close_bid 5 1, .add_ask 6 2]) 1 =
      INVALID_LEVEL_PRICE :=
  ⟨by decide,
    by decide,
    (C2_contiguity_invariant 2 (by omega) _ (by decide)).1 0 1 (by omega) (by omega)
      (by decide)⟩

/-- Counterexample to C2 as frozen: `add_ask 7` then `add_ask 0` on a fresh
`Depth<2>` leaves ask-run prices `[0, 7]` — a valid slot directly after a
sentinel slot of the same run. -/
theorem C2_counterexample :
    Depth.priceAt (Depth.runOps 2 [.add_ask 7 1, .add_ask 0 1]) 2 =
      INVALID_LEVEL_PRICE ∧
    Depth.priceAt (Depth.runOps 2 [.add_ask 7 1, .add_ask 0 1]) 3 = 7 ∧
    (7 : Nat) ≠ INVALID_LEVEL_PRICE := by
  decide

end Liquibook

namespace Liquibook

/-- C4: for `SIZE > 1`, `needs_bid_restoration` returns true with
`restoration_price` set to the price of the slot immediately before the
bid run's last slot exactly when that slot is valid, and returns false
(with the sentinel in the out-parameter) when that slot is sentinel;
symmetrically for `needs_ask_restoration` at slot `2*SIZE - 2`; for
`SIZE = 1` both queries unconditionally return true anchored at the
side's market-order sort sentinel, regardless of the state. -/
theorem C4_restoration_query (SIZE : Nat) (s : List DepthLevel) :
    (1 < SIZE →
      ((Depth.needs_bid_restoration SIZE s =
            Except.ok (true, Depth.priceAt s (SIZE - 2)) ↔
          Depth.priceAt s (SIZE - 2) ≠ INVALID_LEVEL_PRICE) ∧
        (Depth.needs_bid_restoration SIZE s =
            Except.ok (false, Depth.priceAt s (SIZE - 2)) ↔
          Depth.priceAt s (SIZE - 2) = INVALID_LEVEL_PRICE) ∧
        (Depth.needs_ask_restoration SIZE s =
            Except.ok (true, Depth.priceAt s (2 * SIZE - 2)) ↔
          Depth.priceAt s (2 * SIZE - 2) ≠ INVALID_LEVEL_PRICE) ∧
        (Depth.needs_ask_restoration SIZE s =
            Except.ok (false, Depth.priceAt s (2 * SIZE - 2)) ↔
          Depth.priceAt s (2 * SIZE - 2) = INVALID_LEVEL_PRICE))) ∧
    (SIZE = 1 →
      Depth.needs_bid_restoration SIZE s =
          Except.ok (true, MARKET_ORDER_BID_SORT_PRICE) ∧
        Depth.needs_ask_restoration SIZE s =
          Except.ok (true, MARKET_ORDER_ASK_SORT_PRICE)) := by
  constructor
  · intro h2
    refine ⟨?_, ?_, ?_, ?_⟩
    · unfold Depth.needs_bid_restoration
      rw [if_pos h2]
      by_cases h0 : Depth.priceAt s (SIZE - 2) = INVALID_LEVEL_PRICE <;>
        simp [h0]
    · unfold Depth.needs_bid_restoration
      rw [if_pos h2]
      by_cases h0 : Depth.priceAt s (SIZE - 2) = INVALID_LEVEL_PRICE <;>
        simp [h0]
    · unfold Depth.needs_ask_restoration
      rw [if_pos h2]
      by_cases h0 : Depth.priceAt s (2 * SIZE - 2) = INVALID_LEVEL_PRICE <;>
        simp [h0]
    · unfold Depth.needs_ask_restoration
      rw [if_pos h2]
      by_cases h0 : Depth.priceAt s (2 * SIZE - 2) = INVALID_LEVEL_PRICE <;>
        simp [h0]
  · intro h1
    subst h1
    constructor
    · unfold Depth.needs_bid_restoration
      norm_num
    · unfold Depth.needs_ask_restoration
      norm_num

/-- Witness for C4: on the state of `Depth<3>` holding bids 101, 100, 99,
the slot before the bid run's last slot holds 100, and the query answers
`(true, 100)`; on a fresh `Depth<1>` the query answers the bid market
sentinel. -/
theorem C4_restoration_query_witness :
    Depth.needs_bid_restoration 3
        (Depth.runOps 3 [.add_bid 101 10, .add_bid 100 10, .add_bid 99 10]) =
      Except.ok (true, 100) ∧
    Depth.needs_bid_restoration 1 (Depth.new 1) =
      Except.ok (true, MARKET_ORDER_BID_SORT_PRICE) := by
  constructor
  · have h := ((C4_restoration_query 3
      (Depth.runOps 3 [.add_bid 101 10, .add_bid 100 10, .add_bid 99 10])).1
        (by omega)).1.mpr
    have e : Depth.priceAt
        (Depth.runOps 3 [.add_bid 101 10, .add_bid 100 10, .add_bid 99 10]) (3 - 2) =
        100 := by decide
    rw [e] at h
    exact h (by decide)
  · exact ((C4_restoration_query 1 (Depth.new 1)).2 rfl).1

theorem applyOp_length (SIZE : Nat) (op : Op) (s : List DepthLevel) :
    (applyOp SIZE op s).length = s.length := by
  cases op with
  | add_bid p q =>
    simp [applyOp, Depth.add_bid, add_bid_run_length, List.length_take,
      List.length_drop]
    omega
  | close_bid p q =>
    simp [applyOp, Depth.close_bid, close_bid_run_length, List.length_take,
      List.length_drop]
    omega
  | increase_bid p q =>
    simp [applyOp, Depth.increase_bid, increase_bid_run_length, List.length_take,
      List.length_drop]
    omega
  | decrease_bid p q =>
    simp [applyOp, Depth.decrease_bid, decrease_bid_run_length, List.length_take,
      List.length_drop]
    omega
  | add_ask p q =>
    simp [applyOp, Depth.add_ask, add_ask_run_length, List.length_take,
      List.length_drop]
    omega
  | close_ask p q =>
    simp [applyOp, Depth.close_ask, close_ask_run_length, List.length_take,
      List.length_drop]
    omega
  | increase_ask p q =>
    simp [applyOp, Depth.increase_ask, increase_ask_run_length, List.length_take,
      List.length_drop]
    omega
  | decrease_ask p q =>
    simp [applyOp, Depth.decrease_ask, decrease_ask_run_length, List.length_take,
      List.length_drop]
    omega

/-- C8: for capacity less than one, both restoration queries signal the
fatal configuration error (the embedded counterpart of the C++ throw),
and they are the only operations that can do so: construction succeeds for
every capacity (producing the `2*SIZE` zeroed slots), a restoration query
succeeds exactly when `1 ≤ SIZE`, and every mutator call is total and
returns a state of unchanged size, so the steady-state mutation path
signals no error. -/
theorem C8_config_error_only_in_restoration (SIZE : Nat) (s : List DepthLevel) :
    (∀ t : List DepthLevel,
      Depth.needs_bid_restoration 0 t =
          Except.error "Depth size less than one not allowed" ∧
        Depth.needs_ask_restoration 0 t =
          Except.error "Depth size less than one not allowed") ∧
    ((∃ b rp, Depth.needs_bid_restoration SIZE s = Except.ok (b, rp)) ↔ 1 ≤ SIZE) ∧
    ((∃ b rp, Depth.needs_ask_restoration SIZE s = Except.ok (b, rp)) ↔ 1 ≤ SIZE) ∧
    (∀ n : Nat, (Depth.new n).length = 2 * n) ∧
    (∀ (op : Op) (t : List DepthLevel), (applyOp SIZE op t).length = t.length) := by
  refine ⟨?_, ?_, ?_, ?_, ?_⟩
  · intro t
    constructor
    · unfold Depth.needs_bid_restoration
      norm_num
    · unfold Depth.needs_ask_restoration
      norm_num
  · constructor
    · rintro ⟨b, rp, hb⟩
      by_contra h0
      have hz : SIZE = 0 := by omega
      subst hz
      unfold Depth.needs_bid_restoration at hb
      norm_num at hb
      exact Except.noConfusion hb
    · intro h1
      unfold Depth.needs_bid_restoration
      rcases Nat.lt_or_ge 1 SIZE with h2 | h2
      · rw [if_pos h2]
        exact ⟨_, _, rfl⟩
      · have hone : SIZE = 1 := by omega
        subst hone
        norm_num
  · constructor
    · rintro ⟨b, rp, hb⟩
      by_contra h0
      have hz : SIZE = 0 := by omega
      subst hz
      unfold Depth.needs_ask_restoration at hb
      norm_num at hb
      exact Except.noConfusion hb
    · intro h1
      unfold Depth.needs_ask_restoration
      rcases Nat.lt_or_ge 1 SIZE with h2 | h2
      · rw [if_pos h2]
        exact ⟨_, _, rfl⟩
      · have hone : SIZE = 1 := by omega
        subst hone
        norm_num
  · intro n
    simp [Depth.new]
  · intro op t
    exact applyOp_length SIZE op t

/-- Witness for C8 at `SIZE = 0` on the empty state: the restoration query
fails, while construction and a mutator call still work. -/
theorem C8_config_error_only_in_restoration_witness :
    Depth.needs_bid_restoration 0 (Depth.new 0) =
        Except.error "Depth size less than one not allowed" ∧
    (Depth.new 0).length = 2 * 0 ∧
    (applyOp 0 (.add_bid 5 1) (Depth.new 0)).length = (Depth.new 0).length :=
  ⟨((C8_config_error_only_in_restoration 0 (Depth.new 0)).1 (Depth.new 0)).1,
    (C8_config_error_only_in_restoration 0 (Depth.new 0)).2.2.2.1 0,
    (C8_config_error_only_in_restoration 0 (Depth.new 0)).2.2.2.2
      (.add_bid 5 1) (Depth.new 0)⟩

end Liquibook

namespace Liquibook

/-- C9: every bid-side mutator rewrites only the bid-run slice
`0 .. SIZE-1` of the state and leaves the ask slots `SIZE .. 2*SIZE-1`
unchanged, and symmetrically every ask-side mutator leaves the bid slots
unchanged.  (The two restoration queries are embedded as read-only
functions returning `Except String (Bool × Nat)` without a state
component, mirroring that the C++ queries write only their out-parameter
and no slot.) -/
theorem C9_side_frame (SIZE : Nat) (s : List DepthLevel)
    (hlen : s.length = 2 * SIZE) (p q : Nat) :
    (Depth.add_bid SIZE p q s).drop SIZE = s.drop SIZE ∧
    (Depth.close_bid SIZE p q s).2.drop SIZE = s.drop SIZE ∧
    (Depth.increase_bid SIZE p q s).drop SIZE = s.drop SIZE ∧
    (Depth.decrease_bid SIZE p q s).drop SIZE = s.drop SIZE ∧
    (Depth.add_ask SIZE p q s).take SIZE = s.take SIZE ∧
    (Depth.close_ask SIZE p q s).2.take SIZE = s.take SIZE ∧
    (Depth.increase_ask SIZE p q s).take SIZE = s.take SIZE ∧
    (Depth.decrease_ask SIZE p q s).take SIZE = s.take SIZE := by
  have htake : (s.take SIZE).length = SIZE := length_take_run hlen
  refine ⟨?_, ?_, ?_, ?_, ?_, ?_, ?_, ?_⟩
  · unfold Depth.add_bid
    exact drop_append_of_length (by rw [add_bid_run_length]; exact htake)
  · unfold Depth.close_bid
    exact drop_append_of_length (by rw [close_bid_run_length]; exact htake)
  · unfold Depth.increase_bid
    exact drop_append_of_length (by rw [increase_bid_run_length]; exact htake)
  · unfold Depth.decrease_bid
    exact drop_append_of_length (by rw [decrease_bid_run_length]; exact htake)
  · unfold Depth.add_ask
    exact take_append_of_length htake
  · unfold Depth.close_ask
    exact take_append_of_length htake
  · unfold Depth.increase_ask
    exact take_append_of_length htake
  · unfold Depth.decrease_ask
    exact take_append_of_length htake

/-- Witness for C9 at `SIZE = 1` on a state with one bid and one ask. -/
theorem C9_side_frame_witness :
    (Depth.runOps 1 [.add_bid 5 1, .add_ask 9 1]).length = 2 * 1 ∧
    (Depth.add_bid 1 7 1 (Depth.runOps 1 [.add_bid 5 1, .add_ask 9 1])).drop 1 =
      (Depth.runOps 1 [.add_bid 5 1, .add_ask 9 1]).drop 1 ∧
    (Depth.add_ask 1 7 1 (Depth.runOps 1 [.add_bid 5 1, .add_ask 9 1])).take 1 =
      (Depth.runOps 1 [.add_bid 5 1, .add_ask 9 1]).take 1 :=
  ⟨by decide,
    (C9_side_frame 1 (Depth.runOps 1 [.add_bid 5 1, .add_ask 9 1])
      (by decide) 7 1).1,
    (C9_side_frame 1 (Depth.runOps 1 [.add_bid 5 1, .add_ask 9 1])
      (by decide) 7 1).2.2.2.2.1⟩

theorem find_zero_first {run : List DepthLevel} {i : Nat} (hi : i < run.length)
    (h0 : (run.getD i blankLevel).price = INVALID_LEVEL_PRICE)
    (hpre : ∀ j, j < i → (run.getD j blankLevel).price ≠ INVALID_LEVEL_PRICE) :
    find_bid INVALID_LEVEL_PRICE false run =
        some (run.take i, run.getD i blankLevel, run.drop (i + 1)) ∧
      find_ask INVALID_LEVEL_PRICE false run =
        some (run.take i, run.getD i blankLevel, run.drop (i + 1)) := by
  have hgd : run.getD i blankLevel = run.get ⟨i, hi⟩ := by
    rw [List.getD_eq_getElem run blankLevel hi]
    simp
  have hrun : run = run.take i ++ run.getD i blankLevel :: run.drop (i + 1) := by
    conv_lhs => rw [← List.take_append_drop i run]
    congr 1
    rw [List.getD_eq_getElem run blankLevel hi]
    exact (List.getElem_cons_drop run i hi).symm
  have hne : ∀ x ∈ run.take i, x.price ≠ INVALID_LEVEL_PRICE := by
    intro x hx
    obtain ⟨j, hj, hx'⟩ := List.mem_iff_getElem.mp hx
    have hjlen : j < i := by
      simp only [List.length_take] at hj
      omega
    have hjr : j < run.length := by omega
    have hxv : run[j] = x := (List.getElem_take run).symm.trans hx'
    have : x = run.getD j blankLevel := by
      rw [List.getD_eq_getElem run blankLevel hjr, hxv]
    rw [this]
    exact hpre j hjlen
  constructor
  · exact find_bid_first hrun h0
      fun x hx => ⟨hne x hx, fun hb => absurd hb (by simp)⟩
  · exact find_ask_first hrun h0
      fun x hx => ⟨hne x hx, fun hb => absurd hb (by simp)⟩

end Liquibook

namespace Liquibook

/-- C10: because the equality test in `find_bid`/`find_ask` precedes the
blank-slot test, a query price equal to `INVALID_LEVEL_PRICE` matches the
first sentinel slot of a non-full run exactly: with `i` the first sentinel
slot of the run, `increase`/`decrease` with the sentinel price rewrite that
slot's aggregate quantity (so they are not the no-op promised for untracked
prices — the state changes whenever the delta is nonzero), and `close` with
the sentinel price erases that slot and returns true whenever `close_order`
reports it empty. -/
theorem C10_sentinel_price_query (SIZE : Nat) (s : List DepthLevel)
    (hlen : s.length = 2 * SIZE) (d q : Nat) :
    (∀ i, i < SIZE → Depth.priceAt s i = INVALID_LEVEL_PRICE →
      (∀ j, j < i → Depth.priceAt s j ≠ INVALID_LEVEL_PRICE) →
      Depth.increase_bid SIZE INVALID_LEVEL_PRICE d s =
          (s.take SIZE).set i ((Depth.levelAt s i).increase_qty d) ++ s.drop SIZE ∧
      Depth.decrease_bid SIZE INVALID_LEVEL_PRICE d s =
          (s.take SIZE).set i ((Depth.levelAt s i).decrease_qty d) ++ s.drop SIZE ∧
      (d ≠ 0 → Depth.increase_bid SIZE INVALID_LEVEL_PRICE d s ≠ s) ∧
      ((Depth.levelAt s i).order_count - 1 = 0 →
        Depth.close_bid SIZE INVALID_LEVEL_PRICE q s =
          (true, ((s.take SIZE).eraseIdx i ++ [blankLevel]) ++ s.drop SIZE))) ∧
    (∀ i, SIZE ≤ i → i < 2 * SIZE → Depth.priceAt s i = INVALID_LEVEL_PRICE →
      (∀ j, SIZE ≤ j → j < i → Depth.priceAt s j ≠ INVALID_LEVEL_PRICE) →
      Depth.increase_ask SIZE INVALID_LEVEL_PRICE d s =
          s.take SIZE ++
            (s.drop SIZE).set (i - SIZE) ((Depth.levelAt s i).increase_qty d) ∧
      Depth.decrease_ask SIZE INVALID_LEVEL_PRICE d s =
          s.take SIZE ++
            (s.drop SIZE).set (i - SIZE) ((Depth.levelAt s i).decrease_qty d) ∧
      (d ≠ 0 → Depth.increase_ask SIZE INVALID_LEVEL_PRICE d s ≠ s) ∧
      ((Depth.levelAt s i).order_count - 1 = 0 →
        Depth.close_ask SIZE INVALID_LEVEL_PRICE q s =
          (true, s.take SIZE ++
            ((s.drop SIZE).eraseIdx (i - SIZE) ++ [blankLevel])))) := by
  constructor
  · intro i hi h0 hpre
    have hruni : i < (s.take SIZE).length := by
      rw [length_take_run hlen]; exact hi
    have h0' : ((s.take SIZE).getD i blankLevel).price = INVALID_LEVEL_PRICE := by
      rw [getD_take hi]; exact h0
    have hpre0 : ∀ j, j < i →
        ((s.take SIZE).getD j blankLevel).price ≠ INVALID_LEVEL_PRICE := by
      intro j hj
      rw [getD_take (lt_trans hj hi)]
      exact hpre j hj
    obtain ⟨hfb, hfa⟩ := find_zero_first hruni h0' hpre0
    have hlv : (s.take SIZE).getD i blankLevel = Depth.levelAt s i := by
      unfold Depth.levelAt
      exact getD_take hi
    have hinc : Depth.increase_bid SIZE INVALID_LEVEL_PRICE d s =
        (s.take SIZE).set i ((Depth.levelAt s i).increase_qty d) ++ s.drop SIZE := by
      simp only [Depth.increase_bid, increase_bid_run, hfb]
      rw [List.set_eq_take_cons_drop _ hruni, hlv]
    have hdec : Depth.decrease_bid SIZE INVALID_LEVEL_PRICE d s =
        (s.take SIZE).set i ((Depth.levelAt s i).decrease_qty d) ++ s.drop SIZE := by
      simp only [Depth.decrease_bid, decrease_bid_run, hfb]
      rw [List.set_eq_take_cons_drop _ hruni, hlv]
    refine ⟨hinc, hdec, ?_, ?_⟩
    · intro hd heq
      rw [hinc] at heq
      have heq2 : (s.take SIZE).set i ((Depth.levelAt s i).increase_qty d) ++
          s.drop SIZE = s.take SIZE ++ s.drop SIZE :=
        heq.trans (List.take_append_drop SIZE s).symm
      have h3 := List.append_cancel_right heq2
      have h4 := congrArg (fun l => l.getD i blankLevel) h3
      simp only at h4
      rw [List.getD_eq_getElem _ blankLevel (by simpa using hruni)] at h4
      rw [List.getElem_set_self _] at h4
      rw [← hlv] at h4
      have h5 := congrArg DepthLevel.aggregate_qty h4
      simp only [DepthLevel.increase_qty] at h5
      omega
    · intro hcount
      have hcount' : ((s.take SIZE).getD i blankLevel).order_count - 1 = 0 := by
        rw [hlv]; exact hcount
      simp only [Depth.close_bid, close_bid_run, hfb, DepthLevel.close_order,
        hcount']
      simp [List.eraseIdx_eq_take_drop_succ, List.append_assoc]
  · intro i hiS hi h0 hpre
    have hk : i - SIZE < (s.drop SIZE).length := by
      rw [length_drop_run hlen]; omega
    have hsk : SIZE + (i - SIZE) = i := by omega
    have h0' : ((s.drop SIZE).getD (i - SIZE) blankLevel).price =
        INVALID_LEVEL_PRICE := by
      rw [getD_drop, hsk]; exact h0
    have hpre0 : ∀ j, j < i - SIZE →
        ((s.drop SIZE).getD j blankLevel).price ≠ INVALID_LEVEL_PRICE := by
      intro j hj
      rw [getD_drop]
      exact hpre (SIZE + j) (by omega) (by omega)
    obtain ⟨hfb, hfa⟩ := find_zero_first hk h0' hpre0
    have hlv : (s.drop SIZE).getD (i - SIZE) blankLevel = Depth.levelAt s i := by
      unfold Depth.levelAt
      rw [getD_drop, hsk]
    have hinc : Depth.increase_ask SIZE INVALID_LEVEL_PRICE d s =
        s.take SIZE ++
          (s.drop SIZE).set (i - SIZE) ((Depth.levelAt s i).increase_qty d) := by
      simp only [Depth.increase_ask, increase_ask_run, hfa]
      rw [List.set_eq_take_cons_drop _ hk, hlv]
    have hdec : Depth.decrease_ask SIZE INVALID_LEVEL_PRICE d s =
        s.take SIZE ++
          (s.drop SIZE).set (i - SIZE) ((Depth.levelAt s i).decrease_qty d) := by
      simp only [Depth.decrease_ask, decrease_ask_run, hfa]
      rw [List.set_eq_take_cons_drop _ hk, hlv]
    refine ⟨hinc, hdec, ?_, ?_⟩
    · intro hd heq
      rw [hinc] at heq
      have heq2 : s.take SIZE ++
          (s.drop SIZE).set (i - SIZE) ((Depth.levelAt s i).increase_qty d) =
          s.take SIZE ++ s.drop SIZE :=
        heq.trans (List.take_append_drop SIZE s).symm
      have h3 := List.append_cancel_left heq2
      have h4 := congrArg (fun l => l.getD (i - SIZE) blankLevel) h3
      simp only at h4
      rw [List.getD_eq_getElem _ blankLevel (by simpa using hk)] at h4
      rw [List.getElem_set_self _] at h4
      rw [← hlv] at h4
      have h5 := congrArg DepthLevel.aggregate_qty h4
      simp only [DepthLevel.increase_qty] at h5
      omega
    · intro hcount
      have hcount' : ((s.drop SIZE).getD (i - SIZE) blankLevel).order_count - 1
          = 0 := by
        rw [hlv]; exact hcount
      simp only [Depth.close_ask, close_ask_run, hfa, DepthLevel.close_order,
        hcount']
      simp [List.eraseIdx_eq_take_drop_succ, List.append_assoc]

/-- Witness for C10 on a fresh `Depth<1>`: slot 0 is the first sentinel bid
slot, so `increase_bid` at the sentinel price writes quantity 5 into it
(changing the state) and `close_bid` at the sentinel price returns true. -/
theorem C10_sentinel_price_query_witness :
    Depth.increase_bid 1 INVALID_LEVEL_PRICE 5 (Depth.new 1) ≠ Depth.new 1 ∧
    Depth.close_bid 1 INVALID_LEVEL_PRICE 5 (Depth.new 1) =
      (true, (((Depth.new 1).take 1).eraseIdx 0 ++ [blankLevel]) ++
        (Depth.new 1).drop 1) :=
  ⟨((C10_sentinel_price_query 1 (Depth.new 1) (by decide) 5 5).1 0 (by omega)
      (by decide) (fun j hj => absurd hj (by omega))).2.2.1 (by omega),
    ((C10_sentinel_price_query 1 (Depth.new 1) (by decide) 5 5).1 0 (by omega)
      (by decide) (fun j hj => absurd hj (by omega))).2.2.2 (by decide)⟩

end Liquibook

namespace Liquibook

/-- States reachable from a freshly constructed `Depth<SIZE>` by mutator
sequences whose add calls avoid the sentinel price. -/
def Reachable (SIZE : Nat) (s : List DepthLevel) : Prop :=
  ∃ ops : List Op, (∀ op ∈ ops, opOk op) ∧ s = Depth.runOps SIZE ops

theorem reachable_inv {SIZE : Nat} {s : List DepthLevel}
    (h : Reachable SIZE s) : Inv SIZE s := by
  obtain ⟨ops, hops, rfl⟩ := h
  exact runOps_inv SIZE ops hops

theorem mem_take_as_priceAt {s : List DepthLevel} {SIZE : Nat} {x : DepthLevel}
    (hx : x ∈ s.take SIZE) : ∃ j, j < SIZE ∧ x.price = Depth.priceAt s j := by
  obtain ⟨j, hj, hx'⟩ := List.mem_iff_getElem.mp hx
  have hb : j < SIZE ∧ j < s.length := by
    simp only [List.length_take] at hj
    omega
  refine ⟨j, hb.1, ?_⟩
  rw [Depth.priceAt, List.getD_eq_getElem s blankLevel hb.2, ← hx']
  exact congrArg DepthLevel.price (List.getElem_take s)

theorem mem_drop_as_priceAt {s : List DepthLevel} {SIZE : Nat} {x : DepthLevel}
    (hx : x ∈ s.drop SIZE) :
    ∃ j, SIZE ≤ j ∧ j < s.length ∧ x.price = Depth.priceAt s j := by
  obtain ⟨j, hj, hx'⟩ := List.mem_iff_getElem.mp hx
  have hb : SIZE + j < s.length := by
    simp only [List.length_drop] at hj
    omega
  refine ⟨SIZE + j, by omega, hb, ?_⟩
  rw [Depth.priceAt, List.getD_eq_getElem s blankLevel hb, ← hx']
  exact congrArg DepthLevel.price (List.getElem_drop s)

theorem find_price_first {run : List DepthLevel} {i p : Nat}
    (hi : i < run.length) (hp : (run.getD i blankLevel).price = p)
    (hpre : ∀ j, j < i → (run.getD j blankLevel).price ≠ p) :
    find_bid p false run =
        some (run.take i, run.getD i blankLevel, run.drop (i + 1)) ∧
      find_ask p false run =
        some (run.take i, run.getD i blankLevel, run.drop (i + 1)) := by
  have hrun : run = run.take i ++ run.getD i blankLevel :: run.drop (i + 1) := by
    conv_lhs => rw [← List.take_append_drop i run]
    congr 1
    rw [List.getD_eq_getElem run blankLevel hi]
    exact (List.getElem_cons_drop run i hi).symm
  have hne : ∀ x ∈ run.take i, x.price ≠ p := by
    intro x hx
    obtain ⟨j, hj, hx'⟩ := List.mem_iff_getElem.mp hx
    have hjlen : j < i := by
      simp only [List.length_take] at hj
      omega
    have hjr : j < run.length := by omega
    have hxv : run[j] = x := (List.getElem_take run).symm.trans hx'
    have hx2 : x = run.getD j blankLevel := by
      rw [List.getD_eq_getElem run blankLevel hjr, hxv]
    rw [hx2]
    exact hpre j hjlen
  constructor
  · exact find_bid_first hrun hp
      fun x hx => ⟨hne x hx, fun hb => absurd hb (by simp)⟩
  · exact find_ask_first hrun hp
      fun x hx => ⟨hne x hx, fun hb => absurd hb (by simp)⟩

end Liquibook

namespace Liquibook

/-- C3 (amended: for query prices other than the sentinel
`INVALID_LEVEL_PRICE`, as forced by `C3_counterexample`): on reachable
states, `close_bid(p, q)` with no tracked bid level at `p` returns false
and leaves the state unchanged; if the tracked level at `p` still has
orders after `close_order`, the call returns false and only that slot is
rewritten (nothing erased); if `close_order` reports the level empty, the
slot is erased by shift-compaction — following slots move one position
toward the better end and the run's last slot becomes sentinel — and the
call returns true.  Symmetrically for `close_ask`. -/
theorem C3_close_semantics (SIZE : Nat) (s : List DepthLevel) (p q : Nat)
    (hreach : Reachable SIZE s) (hp : p ≠ INVALID_LEVEL_PRICE) :
    ((∀ i, i < SIZE → Depth.priceAt s i ≠ p) →
        Depth.close_bid SIZE p q s = (false, s)) ∧
    (∀ i, i < SIZE → Depth.priceAt s i = p →
      ((Depth.levelAt s i).order_count - 1 ≠ 0 →
        Depth.close_bid SIZE p q s =
          (false, (s.take SIZE).set i
              ((Depth.levelAt s i).close_order q).2 ++ s.drop SIZE)) ∧
      ((Depth.levelAt s i).order_count - 1 = 0 →
        Depth.close_bid SIZE p q s =
          (true, ((s.take SIZE).eraseIdx i ++ [blankLevel]) ++ s.drop SIZE))) ∧
    ((∀ i, SIZE ≤ i → i < 2 * SIZE → Depth.priceAt s i ≠ p) →
        Depth.close_ask SIZE p q s = (false, s)) ∧
    (∀ i, SIZE ≤ i → i < 2 * SIZE → Depth.priceAt s i = p →
      ((Depth.levelAt s i).order_count - 1 ≠ 0 →
        Depth.close_ask SIZE p q s =
          (false, s.take SIZE ++ (s.drop SIZE).set (i - SIZE)
              ((Depth.levelAt s i).close_order q).2)) ∧
      ((Depth.levelAt s i).order_count - 1 = 0 →
        Depth.close_ask SIZE p q s =
          (true, s.take SIZE ++
            ((s.drop SIZE).eraseIdx (i - SIZE) ++ [blankLevel])))) := by
  have hinv := reachable_inv hreach
  have hlen := hinv.1
  refine ⟨?_, ?_, ?_, ?_⟩
  · intro hnone
    have hfn : find_bid p false (s.take SIZE) = none := by
      refine find_bid_none fun x hx => ?_
      obtain ⟨j, hj, he⟩ := mem_take_as_priceAt hx
      exact ⟨by rw [he]; exact hnone j hj, fun hb => absurd hb (by simp)⟩
    simp only [Depth.close_bid, close_bid_run, hfn]
    rw [List.take_append_drop]
  · intro i hi hpi
    have hpre : ∀ j, j < i → Depth.priceAt s j ≠ p := by
      intro j hj heq
      have hpair := inv_bid_pair hinv hj hi
      rw [hpi, heq] at hpair
      simp only [INVALID_LEVEL_PRICE] at hpair hp
      omega
    have hruni : i < (s.take SIZE).length := by
      rw [length_take_run hlen]; exact hi
    have hp0 : ((s.take SIZE).getD i blankLevel).price = p := by
      rw [getD_take hi]; exact hpi
    have hpre0 : ∀ j, j < i → ((s.take SIZE).getD j blankLevel).price ≠ p := by
      intro j hj
      rw [getD_take (lt_trans hj hi)]
      exact hpre j hj
    obtain ⟨hfb, hfa⟩ := find_price_first hruni hp0 hpre0
    have hlv : (s.take SIZE).getD i blankLevel = Depth.levelAt s i := by
      unfold Depth.levelAt
      exact getD_take hi
    constructor
    · intro hcount
      have hbf : ((Depth.levelAt s i).order_count - 1 == 0) = false := by
        simpa using hcount
      simp only [Depth.close_bid, close_bid_run, hfb, hlv,
        DepthLevel.close_order, hbf]
      rw [List.set_eq_take_cons_drop _ hruni]
    · intro hcount
      have hbt : ((Depth.levelAt s i).order_count - 1 == 0) = true := by
        simpa using hcount
      simp only [Depth.close_bid, close_bid_run, hfb, hlv,
        DepthLevel.close_order, hbt]
      simp [List.eraseIdx_eq_take_drop_succ, List.append_assoc]
  · intro hnone
    have hfn : find_ask p false (s.drop SIZE) = none := by
      refine find_ask_none fun x hx => ?_
      obtain ⟨j, hjS, hjl, he⟩ := mem_drop_as_priceAt hx
      refine ⟨by rw [he]; exact hnone j hjS (by omega), fun hb => absurd hb (by simp)⟩
    simp only [Depth.close_ask, close_ask_run, hfn]
    rw [List.take_append_drop]
  · intro i hiS hi hpi
    have hpre : ∀ j, SIZE ≤ j → j < i → Depth.priceAt s j ≠ p := by
      intro j hjS hj heq
      have hpair := inv_ask_pair hinv hjS hj hi
      rw [hpi, heq] at hpair
      simp only [INVALID_LEVEL_PRICE] at hpair hp
      omega
    have hk : i - SIZE < (s.drop SIZE).length := by
      rw [length_drop_run hlen]; omega
    have hsk : SIZE + (i - SIZE) = i := by omega
    have hp0 : ((s.drop SIZE).getD (i - SIZE) blankLevel).price = p := by
      rw [getD_drop, hsk]; exact hpi
    have hpre0 : ∀ j, j < i - SIZE →
        ((s.drop SIZE).getD j blankLevel).price ≠ p := by
      intro j hj
      rw [getD_drop]
      exact hpre (SIZE + j) (by omega) (by omega)
    obtain ⟨hfb, hfa⟩ := find_price_first hk hp0 hpre0
    have hlv : (s.drop SIZE).getD (i - SIZE) blankLevel = Depth.levelAt s i := by
      unfold Depth.levelAt
      rw [getD_drop, hsk]
    constructor
    · intro hcount
      have hbf : ((Depth.levelAt s i).order_count - 1 == 0) = false := by
        simpa using hcount
      simp only [Depth.close_ask, close_ask_run, hfa, hlv,
        DepthLevel.close_order, hbf]
      rw [List.set_eq_take_cons_drop _ hk]
    · intro hcount
      have hbt : ((Depth.levelAt s i).order_count - 1 == 0) = true := by
        simpa using hcount
      simp only [Depth.close_ask, close_ask_run, hfa, hlv,
        DepthLevel.close_order, hbt]
      simp [List.eraseIdx_eq_take_drop_succ, List.append_assoc]

/-- Witness for C3: on the reachable `Depth<1>` state holding the single
bid 100 with one order, `close_bid(100, 50)` empties the level, erases the
slot and returns true. -/
theorem C3_close_semantics_witness :
    Depth.close_bid 1 100 50 (Depth.runOps 1 [.add_bid 100 50]) =
      (true, (((Depth.runOps 1 [.add_bid 100 50]).take 1).eraseIdx 0 ++
        [blankLevel]) ++ (Depth.runOps 1 [.add_bid 100 50]).drop 1) :=
  ((C3_close_semantics 1 (Depth.runOps 1 [.add_bid 100 50]) 100 50
      ⟨[.add_bid 100 50], by decide, rfl⟩ (by decide)).2.1 0 (by omega)
      (by decide)).2 (by decide)

/-- Counterexample to C3 as frozen: on a fresh `Depth<1>` no tracked bid
level has price `INVALID_LEVEL_PRICE` (the only bid slot is sentinel), yet
`close_bid(INVALID_LEVEL_PRICE, 5)` returns true instead of false —
`find_bid`'s equality test matches the sentinel slot before the blank-slot
test can reject it. -/
theorem C3_counterexample :
    Depth.priceAt (Depth.new 1) 0 = INVALID_LEVEL_PRICE ∧
    (Depth.close_bid 1 INVALID_LEVEL_PRICE 5 (Depth.new 1)).1 = true := by
  decide

end Liquibook

namespace Liquibook

theorem find_bid_first_create {run : List DepthLevel} {i p : Nat}
    (hi : i < run.length) (hp : (run.getD i blankLevel).price = p)
    (hpre : ∀ j, j < i → (run.getD j blankLevel).price ≠ p ∧
        (run.getD j blankLevel).price ≠ INVALID_LEVEL_PRICE ∧
        ¬ (run.getD j blankLevel).price < p) :
    find_bid p true run =
      some (run.take i, run.getD i blankLevel, run.drop (i + 1)) := by
  have hrun : run = run.take i ++ run.getD i blankLevel :: run.drop (i + 1) := by
    conv_lhs => rw [← List.take_append_drop i run]
    congr 1
    rw [List.getD_eq_getElem run blankLevel hi]
    exact (List.getElem_cons_drop run i hi).symm
  refine find_bid_first hrun hp fun x hx => ?_
  obtain ⟨j, hj, hx'⟩ := List.mem_iff_getElem.mp hx
  have hjlen : j < i := by
    simp only [List.length_take] at hj
    omega
  have hjr : j < run.length := by omega
  have hxv : run[j] = x := (List.getElem_take run).symm.trans hx'
  have hx2 : x = run.getD j blankLevel := by
    rw [List.getD_eq_getElem run blankLevel hjr, hxv]
  obtain ⟨h1, h2, h3⟩ := hpre j hjlen
  rw [hx2]
  exact ⟨h1, fun _ => ⟨h2, h3⟩⟩

theorem find_ask_first_create {run : List DepthLevel} {i p : Nat}
    (hi : i < run.length) (hp : (run.getD i blankLevel).price = p)
    (hpre : ∀ j, j < i → (run.getD j blankLevel).price ≠ p ∧
        (run.getD j blankLevel).price ≠ INVALID_LEVEL_PRICE ∧
        ¬ p < (run.getD j blankLevel).price) :
    find_ask p true run =
      some (run.take i, run.getD i blankLevel, run.drop (i + 1)) := by
  have hrun : run = run.take i ++ run.getD i blankLevel :: run.drop (i + 1) := by
    conv_lhs => rw [← List.take_append_drop i run]
    congr 1
    rw [List.getD_eq_getElem run blankLevel hi]
    exact (List.getElem_cons_drop run i hi).symm
  refine find_ask_first hrun hp fun x hx => ?_
  obtain ⟨j, hj, hx'⟩ := List.mem_iff_getElem.mp hx
  have hjlen : j < i := by
    simp only [List.length_take] at hj
    omega
  have hjr : j < run.length := by omega
  have hxv : run[j] = x := (List.getElem_take run).symm.trans hx'
  have hx2 : x = run.getD j blankLevel := by
    rw [List.getD_eq_getElem run blankLevel hjr, hxv]
  obtain ⟨h1, h2, h3⟩ := hpre j hjlen
  rw [hx2]
  exact ⟨h1, fun _ => ⟨h2, h3⟩⟩

/-- C7: on a fresh `Depth<SIZE>` (`SIZE ≥ 1`), `add_ask(10, 5)` followed by
`add_ask(10, 3)` yields exactly one occupied ask slot — price 10,
aggregate quantity 8, order count 2 — with every other slot blank; and in
general, on a reachable state, an add at an already-tracked (non-sentinel)
price rewrites exactly the slot already holding that price via `add_order`
instead of creating a second slot. -/
theorem C7_add_aggregates (SIZE : Nat) (hS : 1 ≤ SIZE) (s : List DepthLevel)
    (p q : Nat) (hreach : Reachable SIZE s) (hp : p ≠ INVALID_LEVEL_PRICE) :
    Depth.runOps SIZE [.add_ask 10 5, .add_ask 10 3] =
        List.replicate SIZE blankLevel ++
          DepthLevel.mk 10 8 2 :: List.replicate (SIZE - 1) blankLevel ∧
    (∀ i, i < SIZE → Depth.priceAt s i = p →
      Depth.add_bid SIZE p q s =
        (s.take SIZE).set i ((Depth.levelAt s i).add_order q) ++ s.drop SIZE) ∧
    (∀ i, SIZE ≤ i → i < 2 * SIZE → Depth.priceAt s i = p →
      Depth.add_ask SIZE p q s =
        s.take SIZE ++
          (s.drop SIZE).set (i - SIZE) ((Depth.levelAt s i).add_order q)) := by
  have hinv := reachable_inv hreach
  have hlen := hinv.1
  refine ⟨?_, ?_, ?_⟩
  · obtain ⟨m, rfl⟩ : ∃ m, SIZE = m + 1 := ⟨SIZE - 1, by omega⟩
    have hnew : Depth.new (m + 1) =
        List.replicate (m + 1) blankLevel ++ List.replicate (m + 1) blankLevel := by
      rw [Depth.new, ← List.replicate_add]
      congr 1
      omega
    have htk : ∀ t : List DepthLevel,
        (List.replicate (m + 1) blankLevel ++ t).take (m + 1) =
          List.replicate (m + 1) blankLevel :=
      fun t => take_append_of_length (List.length_replicate _ _)
    have hdp : ∀ t : List DepthLevel,
        (List.replicate (m + 1) blankLevel ++ t).drop (m + 1) = t :=
      fun t => drop_append_of_length (List.length_replicate _ _)
    have hstep1 : add_ask_run 10 5 (List.replicate (m + 1) blankLevel) =
        DepthLevel.mk 10 5 1 :: List.replicate m blankLevel := by
      rw [List.replicate_succ]
      simp [add_ask_run, find_ask, blankLevel, DepthLevel.init,
        INVALID_LEVEL_PRICE, DepthLevel.add_order]
    have hstep2 : add_ask_run 10 3
        (DepthLevel.mk 10 5 1 :: List.replicate m blankLevel) =
        DepthLevel.mk 10 8 2 :: List.replicate m blankLevel := by
      simp [add_ask_run, find_ask, DepthLevel.add_order]
    show applyOp (m + 1) (.add_ask 10 3)
        (applyOp (m + 1) (.add_ask 10 5) (Depth.new (m + 1))) = _
    rw [show applyOp (m + 1) (Op.add_ask 10 5) (Depth.new (m + 1)) =
        Depth.add_ask (m + 1) 10 5 (Depth.new (m + 1)) from rfl]
    rw [show applyOp (m + 1) (Op.add_ask 10 3) = Depth.add_ask (m + 1) 10 3
        from rfl]
    unfold Depth.add_ask
    rw [hnew, htk, hdp, hstep1, htk, hdp, hstep2]
    simp
  · intro i hi hpi
    have hruni : i < (s.take SIZE).length := by
      rw [length_take_run hlen]; exact hi
    have hp0 : ((s.take SIZE).getD i blankLevel).price = p := by
      rw [getD_take hi]; exact hpi
    have hpre0 : ∀ j, j < i → ((s.take SIZE).getD j blankLevel).price ≠ p ∧
        ((s.take SIZE).getD j blankLevel).price ≠ INVALID_LEVEL_PRICE ∧
        ¬ ((s.take SIZE).getD j blankLevel).price < p := by
      intro j hj
      rw [getD_take (lt_trans hj hi)]
      have hpair := inv_bid_pair hinv hj hi
      rw [hpi] at hpair
      show Depth.priceAt s j ≠ p ∧ Depth.priceAt s j ≠ INVALID_LEVEL_PRICE ∧
        ¬ Depth.priceAt s j < p
      simp only [INVALID_LEVEL_PRICE] at hpair hp ⊢
      omega
    have hfb := find_bid_first_create hruni hp0 hpre0
    have hlv : (s.take SIZE).getD i blankLevel = Depth.levelAt s i := by
      unfold Depth.levelAt
      exact getD_take hi
    simp only [Depth.add_bid, add_bid_run, hfb, hlv]
    rw [List.set_eq_take_cons_drop _ hruni]
  · intro i hiS hi hpi
    have hk : i - SIZE < (s.drop SIZE).length := by
      rw [length_drop_run hlen]; omega
    have hsk : SIZE + (i - SIZE) = i := by omega
    have hp0 : ((s.drop SIZE).getD (i - SIZE) blankLevel).price = p := by
      rw [getD_drop, hsk]; exact hpi
    have hpre0 : ∀ j, j < i - SIZE →
        ((s.drop SIZE).getD j blankLevel).price ≠ p ∧
        ((s.drop SIZE).getD j blankLevel).price ≠ INVALID_LEVEL_PRICE ∧
        ¬ p < ((s.drop SIZE).getD j blankLevel).price := by
      intro j hj
      rw [getD_drop]
      have hpair := inv_ask_pair hinv (show SIZE ≤ SIZE + j by omega)
        (show SIZE + j < i by omega) hi
      rw [hpi] at hpair
      show Depth.priceAt s (SIZE + j) ≠ p ∧
        Depth.priceAt s (SIZE + j) ≠ INVALID_LEVEL_PRICE ∧
        ¬ p < Depth.priceAt s (SIZE + j)
      simp only [INVALID_LEVEL_PRICE] at hpair hp ⊢
      omega
    have hfa := find_ask_first_create hk hp0 hpre0
    have hlv : (s.drop SIZE).getD (i - SIZE) blankLevel = Depth.levelAt s i := by
      unfold Depth.levelAt
      rw [getD_drop, hsk]
    simp only [Depth.add_ask, add_ask_run, hfa, hlv]
    rw [List.set_eq_take_cons_drop _ hk]

/-- Witness for C7 at `SIZE = 2`: the two ask adds at price 10 produce the
single aggregated slot, and a bid add at the already-tracked price 5
rewrites that slot in place. -/
theorem C7_add_aggregates_witness :
    Depth.runOps 2 [.add_ask 10 5, .add_ask 10 3] =
        List.replicate 2 blankLevel ++
          DepthLevel.mk 10 8 2 :: List.replicate 1 blankLevel ∧
    Depth.add_bid 2 5 7 (Depth.runOps 2 [.add_bid 5 1]) =
      ((Depth.runOps 2 [.add_bid 5 1]).take 2).set 0
          ((Depth.levelAt (Depth.runOps 2 [.add_bid 5 1]) 0).add_order 7) ++
        (Depth.runOps 2 [.add_bid 5 1]).drop 2 :=
  ⟨(C7_add_aggregates 2 (by omega) (Depth.new 2) 1 1
      ⟨[], by decide, rfl⟩ (by decide)).1,
    (C7_add_aggregates 2 (by omega) (Depth.runOps 2 [.add_bid 5 1]) 5 7
      ⟨[.add_bid 5 1], by decide, rfl⟩ (by decide)).2.1 0 (by omega) (by decide)⟩

end Liquibook

namespace Liquibook

theorem getD_append_left {l l' : List DepthLevel} {i : Nat} (h : i < l.length) :
    (l ++ l').getD i blankLevel = l.getD i blankLevel := by
  rw [List.getD_eq_getElem _ blankLevel (by simp; omega),
    List.getD_eq_getElem _ blankLevel h]
  exact List.getElem_append_left h

theorem find_bid_insert_at {run : List DepthLevel} {k p : Nat}
    (hk : k < run.length)
    (hlt : (run.getD k blankLevel).price < p)
    (hnz : (run.getD k blankLevel).price ≠ INVALID_LEVEL_PRICE)
    (hpre : ∀ j, j < k → (run.getD j blankLevel).price ≠ p ∧
        (run.getD j blankLevel).price ≠ INVALID_LEVEL_PRICE ∧
        ¬ (run.getD j blankLevel).price < p) :
    find_bid p true run =
      some (run.take k, DepthLevel.init p, (run.drop k).dropLast) := by
  induction k generalizing run with
  | zero =>
    cases run with
    | nil => simp at hk
    | cons x rest =>
      have hx : (x :: rest).getD 0 blankLevel = x := rfl
      rw [hx] at hlt hnz
      simp only [find_bid]
      rw [if_neg (by omega : ¬ x.price = p), if_neg, if_pos ⟨by trivial, hlt⟩]
      · simp
      · rintro ⟨-, h0⟩
        exact hnz h0
  | succ k ih =>
    cases run with
    | nil => simp at hk
    | cons x rest =>
      have hx0 := hpre 0 (Nat.succ_pos k)
      have hx : (x :: rest).getD 0 blankLevel = x := rfl
      rw [hx] at hx0
      have hcs : ∀ (j : Nat), (x :: rest).getD (j + 1) blankLevel =
          rest.getD j blankLevel := fun j => rfl
      simp only [find_bid]
      rw [if_neg hx0.1, if_neg, if_neg]
      · have hk' : k < rest.length := by
          simpa using hk
        have hlt' : (rest.getD k blankLevel).price < p := by
          rw [← hcs k]; exact hlt
        have hnz' : (rest.getD k blankLevel).price ≠ INVALID_LEVEL_PRICE := by
          rw [← hcs k]; exact hnz
        have hpre' : ∀ j, j < k → (rest.getD j blankLevel).price ≠ p ∧
            (rest.getD j blankLevel).price ≠ INVALID_LEVEL_PRICE ∧
            ¬ (rest.getD j blankLevel).price < p := by
          intro j hj
          rw [← hcs j]
          exact hpre (j + 1) (by omega)
        rw [ih hk' hlt' hnz' hpre']
        simp
      · rintro ⟨-, hlt0⟩
        exact hx0.2.2 hlt0
      · rintro ⟨-, h0⟩
        exact hx0.2.1 h0

theorem find_ask_insert_at {run : List DepthLevel} {k p : Nat}
    (hk : k < run.length)
    (hlt : p < (run.getD k blankLevel).price)
    (hnz : (run.getD k blankLevel).price ≠ INVALID_LEVEL_PRICE)
    (hpre : ∀ j, j < k → (run.getD j blankLevel).price ≠ p ∧
        (run.getD j blankLevel).price ≠ INVALID_LEVEL_PRICE ∧
        ¬ p < (run.getD j blankLevel).price) :
    find_ask p true run =
      some (run.take k, DepthLevel.init p, (run.drop k).dropLast) := by
  induction k generalizing run with
  | zero =>
    cases run with
    | nil => simp at hk
    | cons x rest =>
      have hx : (x :: rest).getD 0 blankLevel = x := rfl
      rw [hx] at hlt hnz
      simp only [find_ask]
      rw [if_neg (by omega : ¬ x.price = p), if_neg, if_pos ⟨by trivial, hlt⟩]
      · simp
      · rintro ⟨-, h0⟩
        exact hnz h0
  | succ k ih =>
    cases run with
    | nil => simp at hk
    | cons x rest =>
      have hx0 := hpre 0 (Nat.succ_pos k)
      have hx : (x :: rest).getD 0 blankLevel = x := rfl
      rw [hx] at hx0
      have hcs : ∀ (j : Nat), (x :: rest).getD (j + 1) blankLevel =
          rest.getD j blankLevel := fun j => rfl
      simp only [find_ask]
      rw [if_neg hx0.1, if_neg, if_neg]
      · have hk' : k < rest.length := by
          simpa using hk
        have hlt' : p < (rest.getD k blankLevel).price := by
          rw [← hcs k]; exact hlt
        have hnz' : (rest.getD k blankLevel).price ≠ INVALID_LEVEL_PRICE := by
          rw [← hcs k]; exact hnz
        have hpre' : ∀ j, j < k → (rest.getD j blankLevel).price ≠ p ∧
            (rest.getD j blankLevel).price ≠ INVALID_LEVEL_PRICE ∧
            ¬ p < (rest.getD j blankLevel).price := by
          intro j hj
          rw [← hcs j]
          exact hpre (j + 1) (by omega)
        rw [ih hk' hlt' hnz' hpre']
        simp
      · rintro ⟨-, hlt0⟩
        exact hx0.2.2 hlt0
      · rintro ⟨-, h0⟩
        exact hx0.2.1 h0

theorem add_bid_run_keeps_valid {run : List DepthLevel} {p q : Nat}
    (hfull : ∀ x ∈ run, x.price ≠ INVALID_LEVEL_PRICE) :
    ∀ x ∈ add_bid_run p q run, x.price ≠ INVALID_LEVEL_PRICE := by
  by_cases hp : p = INVALID_LEVEL_PRICE
  · subst hp
    unfold add_bid_run
    rw [find_bid_none fun x hx => ?_]
    · exact hfull
    · refine ⟨hfull x hx, fun _ => ⟨hfull x hx, ?_⟩⟩
      simp [INVALID_LEVEL_PRICE]
  · unfold add_bid_run
    cases hf : find_bid p true run with
    | none => exact hfull
    | some trip =>
      obtain ⟨pre, lv, post⟩ := trip
      intro x hx
      rcases List.mem_append.mp hx with hx1 | hx2
      · exact hfull x (find_bid_mem hf x (List.mem_append_left _ hx1))
      · rcases List.mem_cons.mp hx2 with rfl | hx3
        · rw [DepthLevel.price_add_order, find_bid_price hf]
          exact hp
        · exact hfull x (find_bid_mem hf x (List.mem_append_right _ hx3))

theorem add_bid_keeps_full {SIZE : Nat} {s : List DepthLevel} {p q : Nat}
    (hlen : s.length = 2 * SIZE)
    (hfull : ∀ i, i < SIZE → Depth.priceAt s i ≠ INVALID_LEVEL_PRICE) :
    ∀ i, i < SIZE →
      Depth.priceAt (Depth.add_bid SIZE p q s) i ≠ INVALID_LEVEL_PRICE := by
  intro i hi
  have hrl : (add_bid_run p q (s.take SIZE)).length = SIZE := by
    rw [add_bid_run_length]; exact length_take_run hlen
  have hfull' : ∀ x ∈ s.take SIZE, x.price ≠ INVALID_LEVEL_PRICE := by
    intro x hx
    obtain ⟨j, hj, he⟩ := mem_take_as_priceAt hx
    rw [he]
    exact hfull j hj
  have hi' : i < (add_bid_run p q (s.take SIZE)).length := by omega
  unfold Depth.add_bid Depth.priceAt
  rw [getD_append_left hi', List.getD_eq_getElem _ blankLevel hi']
  exact add_bid_run_keeps_valid hfull' _ (List.getElem_mem hi')

/-- The stepwise hypothesis of the capacity-bound scenario: each add is at
a price strictly better (higher) than the bid price currently tracked in
the run's last slot (the worst tracked level of a full bid run). -/
def StepwiseBetterBid (SIZE : Nat) : List DepthLevel → List (Nat × Nat) → Prop
  | _, [] => True
  | t, pq :: rest =>
      Depth.priceAt t (SIZE - 1) < pq.1 ∧
      StepwiseBetterBid SIZE (Depth.add_bid SIZE pq.1 pq.2 t) rest

theorem foldl_add_bid_keeps_full {SIZE : Nat} (qs : List (Nat × Nat)) :
    ∀ s : List DepthLevel, s.length = 2 * SIZE →
      (∀ i, i < SIZE → Depth.priceAt s i ≠ INVALID_LEVEL_PRICE) →
      ∀ i, i < SIZE →
        Depth.priceAt
          (qs.foldl (fun t pq => Depth.add_bid SIZE pq.1 pq.2 t) s) i ≠
          INVALID_LEVEL_PRICE := by
  induction qs with
  | nil => intro s _ hfull; exact hfull
  | cons pq rest ih =>
    intro s hlen hfull
    rw [List.foldl_cons]
    have hlen' : (Depth.add_bid SIZE pq.1 pq.2 s).length = 2 * SIZE :=
      (applyOp_length SIZE (.add_bid pq.1 pq.2) s).trans hlen
    exact ih _ hlen' (add_bid_keeps_full hlen hfull)

end Liquibook

namespace Liquibook

instance instDecStepwise : (SIZE : Nat) → (t : List DepthLevel) →
    (qs : List (Nat × Nat)) → Decidable (StepwiseBetterBid SIZE t qs)
  | _, _, [] => isTrue True.intro
  | SIZE, t, pq :: rest =>
    haveI := instDecStepwise SIZE (Depth.add_bid SIZE pq.1 pq.2 t) rest
    inferInstanceAs (Decidable (Depth.priceAt t (SIZE - 1) < pq.1 ∧
      StepwiseBetterBid SIZE (Depth.add_bid SIZE pq.1 pq.2 t) rest))

/-- C5 (amended in the middle clause: the inserted price must not already
be tracked, as forced by `C5_counterexample`): on a reachable state whose
run is full, (i) an add at a price strictly worse than every tracked price
of that run is a silent no-op, never evicting a better level; (ii) an add
at an untracked price strictly better than some tracked price inserts a
level at its sorted position `k` and drops the run's last slot, so the new
run prices are a permutation of the new price together with the old prices
minus the last one — the single worst tracked price, since the run is
sorted; and (iii) from a full bid run, `SIZE + 1` further adds at distinct
prices, each strictly better than the currently tracked worst, leave
exactly `SIZE` valid bid levels. -/
theorem C5_capacity_and_eviction (SIZE : Nat) (s : List DepthLevel)
    (p q : Nat) (hreach : Reachable SIZE s) :
    ((∀ i, i < SIZE → Depth.priceAt s i ≠ INVALID_LEVEL_PRICE) →
     (∀ i, i < SIZE → p < Depth.priceAt s i) →
        Depth.add_bid SIZE p q s = s) ∧
    ((∀ i, SIZE ≤ i → i < 2 * SIZE → Depth.priceAt s i ≠ INVALID_LEVEL_PRICE) →
     (∀ i, SIZE ≤ i → i < 2 * SIZE → Depth.priceAt s i < p) →
        Depth.add_ask SIZE p q s = s) ∧
    ((∀ i, i < SIZE → Depth.priceAt s i ≠ INVALID_LEVEL_PRICE) →
     (∀ i, i < SIZE → Depth.priceAt s i ≠ p) →
     (∃ i, i < SIZE ∧ Depth.priceAt s i < p) →
      ∃ k, k < SIZE ∧ (∀ j, j < k → p < Depth.priceAt s j) ∧
        Depth.priceAt s k < p ∧
        Depth.add_bid SIZE p q s =
          ((s.take SIZE).take k ++ (DepthLevel.init p).add_order q ::
            ((s.take SIZE).drop k).dropLast) ++ s.drop SIZE ∧
        (((Depth.add_bid SIZE p q s).take SIZE).map DepthLevel.price).Perm
          (p :: ((s.take SIZE).map DepthLevel.price).dropLast) ∧
        (∀ j, j < SIZE → Depth.priceAt s (SIZE - 1) ≤ Depth.priceAt s j)) ∧
    ((∀ i, SIZE ≤ i → i < 2 * SIZE → Depth.priceAt s i ≠ INVALID_LEVEL_PRICE) →
     (∀ i, SIZE ≤ i → i < 2 * SIZE → Depth.priceAt s i ≠ p) →
     (∃ i, SIZE ≤ i ∧ i < 2 * SIZE ∧ p < Depth.priceAt s i) →
      ∃ a, SIZE ≤ a ∧ a < 2 * SIZE ∧
        (∀ j, SIZE ≤ j → j < a → Depth.priceAt s j < p) ∧
        p < Depth.priceAt s a ∧
        Depth.add_ask SIZE p q s =
          s.take SIZE ++ ((s.drop SIZE).take (a - SIZE) ++
            (DepthLevel.init p).add_order q ::
              ((s.drop SIZE).drop (a - SIZE)).dropLast) ∧
        (((Depth.add_ask SIZE p q s).drop SIZE).map DepthLevel.price).Perm
          (p :: ((s.drop SIZE).map DepthLevel.price).dropLast) ∧
        (∀ j, SIZE ≤ j → j < 2 * SIZE →
          Depth.priceAt s j ≤ Depth.priceAt s (2 * SIZE - 1))) ∧
    ((∀ i, i < SIZE → Depth.priceAt s i ≠ INVALID_LEVEL_PRICE) →
     ∀ qs : List (Nat × Nat), qs.length = SIZE + 1 →
       (qs.map Prod.fst).Nodup → StepwiseBetterBid SIZE s qs →
       ∀ i, i < SIZE →
         Depth.priceAt
           (qs.foldl (fun t pq => Depth.add_bid SIZE pq.1 pq.2 t) s) i ≠
           INVALID_LEVEL_PRICE) := by
  have hinv := reachable_inv hreach
  have hlen := hinv.1
  refine ⟨?_, ?_, ?_, ?_, ?_⟩
  · intro hfull hworse
    have hfn : find_bid p true (s.take SIZE) = none := by
      refine find_bid_none fun x hx => ?_
      obtain ⟨j, hj, he⟩ := mem_take_as_priceAt hx
      rw [he]
      have h1 := hfull j hj
      have h2 := hworse j hj
      exact ⟨by omega, fun _ => ⟨h1, by omega⟩⟩
    simp only [Depth.add_bid, add_bid_run, hfn]
    exact List.take_append_drop SIZE s
  · intro hfull hworse
    have hfn : find_ask p true (s.drop SIZE) = none := by
      refine find_ask_none fun x hx => ?_
      obtain ⟨j, hjS, hjl, he⟩ := mem_drop_as_priceAt hx
      rw [he]
      have h1 := hfull j hjS (by omega)
      have h2 := hworse j hjS (by omega)
      exact ⟨by omega, fun _ => ⟨h1, by omega⟩⟩
    simp only [Depth.add_ask, add_ask_run, hfn]
    exact List.take_append_drop SIZE s
  · intro hfull hun hsome
    have hex : ∃ j, j < SIZE ∧ Depth.priceAt s j < p := hsome
    set k := Nat.find hex with hkdef
    obtain ⟨hkS, hklt⟩ := Nat.find_spec hex
    have hkmin : ∀ j, j < k → ¬ Depth.priceAt s j < p := by
      intro j hj hlt
      exact Nat.find_min hex hj ⟨by omega, hlt⟩
    have hk' : k < (s.take SIZE).length := by
      rw [length_take_run hlen]; exact hkS
    have hlt' : ((s.take SIZE).getD k blankLevel).price < p := by
      rw [getD_take hkS]; exact hklt
    have hnz' : ((s.take SIZE).getD k blankLevel).price ≠ INVALID_LEVEL_PRICE := by
      rw [getD_take hkS]; exact hfull k hkS
    have hpre' : ∀ j, j < k → ((s.take SIZE).getD j blankLevel).price ≠ p ∧
        ((s.take SIZE).getD j blankLevel).price ≠ INVALID_LEVEL_PRICE ∧
        ¬ ((s.take SIZE).getD j blankLevel).price < p := by
      intro j hj
      rw [getD_take (by omega : j < SIZE)]
      exact ⟨hun j (by omega), hfull j (by omega), hkmin j hj⟩
    have hfb := find_bid_insert_at hk' hlt' hnz' hpre'
    have heq : Depth.add_bid SIZE p q s =
        ((s.take SIZE).take k ++ (DepthLevel.init p).add_order q ::
          ((s.take SIZE).drop k).dropLast) ++ s.drop SIZE := by
      simp only [Depth.add_bid, add_bid_run, hfb]
    have hrl : ((s.take SIZE).take k ++ (DepthLevel.init p).add_order q ::
        ((s.take SIZE).drop k).dropLast).length = SIZE := by
      simp only [List.length_append, List.length_cons, List.length_take,
        List.length_dropLast, List.length_drop, length_take_run hlen]
      omega
    have htakeSZ : (Depth.add_bid SIZE p q s).take SIZE =
        (s.take SIZE).take k ++ (DepthLevel.init p).add_order q ::
          ((s.take SIZE).drop k).dropLast := by
      rw [heq]
      exact take_append_of_length hrl
    have hdropne : ((s.take SIZE).drop k).map DepthLevel.price ≠ [] := by
      apply List.ne_nil_of_length_pos
      rw [List.length_map, List.length_drop, length_take_run hlen]
      omega
    refine ⟨k, hkS, ?_, hklt, heq, ?_, ?_⟩
    · intro j hj
      have h1 := hkmin j hj
      have h2 := hun j (by omega)
      omega
    · rw [htakeSZ, List.map_append, List.map_cons]
      simp only [DepthLevel.price_add_order, DepthLevel.price_init]
      have hmapsplit : ((s.take SIZE).map DepthLevel.price).dropLast =
          ((s.take SIZE).take k).map DepthLevel.price ++
            (((s.take SIZE).drop k).map DepthLevel.price).dropLast := by
        conv_lhs => rw [← List.take_append_drop k (s.take SIZE)]
        rw [List.map_append, List.dropLast_append_of_ne_nil _ hdropne]
      rw [hmapsplit, ← List.map_dropLast]
      exact List.perm_middle
    · intro j hj
      rcases Nat.lt_or_ge j (SIZE - 1) with hj2 | hj2
      · have hpair := inv_bid_pair hinv hj2 (by omega)
        have h1 := hfull (SIZE - 1) (by omega)
        simp only [INVALID_LEVEL_PRICE] at hpair h1
        omega
      · have : j = SIZE - 1 := by omega
        rw [this]
  · intro hfull hun hsome
    have hex : ∃ j, j < SIZE ∧ p < Depth.priceAt s (SIZE + j) := by
      obtain ⟨i, hiS, hi2, hip⟩ := hsome
      exact ⟨i - SIZE, by omega, by rw [show SIZE + (i - SIZE) = i by omega]; exact hip⟩
    set k := Nat.find hex with hkdef
    obtain ⟨hkS, hklt⟩ := Nat.find_spec hex
    have hkmin : ∀ j, j < k → ¬ p < Depth.priceAt s (SIZE + j) := by
      intro j hj hlt
      exact Nat.find_min hex hj ⟨by omega, hlt⟩
    have hk' : k < (s.drop SIZE).length := by
      rw [length_drop_run hlen]; exact hkS
    have hgd : ∀ j : Nat, (s.drop SIZE).getD j blankLevel =
        s.getD (SIZE + j) blankLevel := fun j => getD_drop s SIZE j
    have hlt' : p < ((s.drop SIZE).getD k blankLevel).price := by
      rw [hgd k]; exact hklt
    have hnz' : ((s.drop SIZE).getD k blankLevel).price ≠ INVALID_LEVEL_PRICE := by
      rw [hgd k]; exact hfull (SIZE + k) (by omega) (by omega)
    have hpre' : ∀ j, j < k → ((s.drop SIZE).getD j blankLevel).price ≠ p ∧
        ((s.drop SIZE).getD j blankLevel).price ≠ INVALID_LEVEL_PRICE ∧
        ¬ p < ((s.drop SIZE).getD j blankLevel).price := by
      intro j hj
      rw [hgd j]
      exact ⟨hun (SIZE + j) (by omega) (by omega),
        hfull (SIZE + j) (by omega) (by omega), hkmin j hj⟩
    have hfa := find_ask_insert_at hk' hlt' hnz' hpre'
    have hksub : SIZE + k - SIZE = k := by omega
    have heq : Depth.add_ask SIZE p q s =
        s.take SIZE ++ ((s.drop SIZE).take (SIZE + k - SIZE) ++
          (DepthLevel.init p).add_order q ::
            ((s.drop SIZE).drop (SIZE + k - SIZE)).dropLast) := by
      rw [hksub]
      simp only [Depth.add_ask, add_ask_run, hfa]
    have htake : (s.take SIZE).length = SIZE := length_take_run hlen
    have hdropSZ : (Depth.add_ask SIZE p q s).drop SIZE =
        (s.drop SIZE).take k ++ (DepthLevel.init p).add_order q ::
          ((s.drop SIZE).drop k).dropLast := by
      rw [heq, hksub]
      exact drop_append_of_length htake
    have hdropne : ((s.drop SIZE).drop k).map DepthLevel.price ≠ [] := by
      apply List.ne_nil_of_length_pos
      rw [List.length_map, List.length_drop, length_drop_run hlen]
      omega
    refine ⟨SIZE + k, by omega, by omega, ?_, hklt, heq, ?_, ?_⟩
    · intro j hjS hj
      have h1 := hkmin (j - SIZE) (by omega)
      have h2 := hun j hjS (by omega)
      rw [show SIZE + (j - SIZE) = j by omega] at h1
      omega
    · rw [hdropSZ, List.map_append, List.map_cons]
      simp only [DepthLevel.price_add_order, DepthLevel.price_init]
      have hmapsplit : ((s.drop SIZE).map DepthLevel.price).dropLast =
          ((s.drop SIZE).take k).map DepthLevel.price ++
            (((s.drop SIZE).drop k).map DepthLevel.price).dropLast := by
        conv_lhs => rw [← List.take_append_drop k (s.drop SIZE)]
        rw [List.map_append, List.dropLast_append_of_ne_nil _ hdropne]
      rw [hmapsplit, ← List.map_dropLast]
      exact List.perm_middle
    · intro j hjS hj
      rcases Nat.lt_or_ge j (2 * SIZE - 1) with hj2 | hj2
      · have hpair := inv_ask_pair hinv hjS hj2 (by omega)
        have h1 := hfull (2 * SIZE - 1) (by omega) (by omega)
        simp only [INVALID_LEVEL_PRICE] at hpair h1
        omega
      · have : j = 2 * SIZE - 1 := by omega
        rw [this]
  · intro hfull qs hqlen hnodup hstep i hi
    exact foldl_add_bid_keeps_full qs s hlen hfull i hi

/-- Witness for C5 on the reachable full `Depth<1>` state holding bid 10:
an add at the strictly worse price 5 is a no-op; and from the same state
the two stepwise-better adds 11, 12 (distinct prices) leave the single bid
slot valid. -/
theorem C5_capacity_and_eviction_witness :
    Depth.add_bid 1 5 1 (Depth.runOps 1 [.add_bid 10 1]) =
        Depth.runOps 1 [.add_bid 10 1] ∧
    Depth.priceAt
        ([((11 : Nat), (1 : Nat)), (12, 1)].foldl
          (fun t pq => Depth.add_bid 1 pq.1 pq.2 t)
          (Depth.runOps 1 [.add_bid 10 1])) 0 ≠ INVALID_LEVEL_PRICE :=
  ⟨(C5_capacity_and_eviction 1 (Depth.runOps 1 [.add_bid 10 1]) 5 1
      ⟨[.add_bid 10 1], by decide, rfl⟩).1
      (by decide) (by decide),
    (C5_capacity_and_eviction 1 (Depth.runOps 1 [.add_bid 10 1]) 5 1
      ⟨[.add_bid 10 1], by decide, rfl⟩).2.2.2.2
      (by decide) [(11, 1), (12, 1)] (by decide) (by decide) (by decide)
      0 (by omega)⟩

/-- Counterexample to C5 as frozen: on the reachable full `Depth<2>` bid
run `[10, 5]`, an `add_bid` at price 10 — already tracked, and strictly
better than the tracked 5 — aggregates into the existing slot: no level is
inserted and the worst level 5 is not removed, contradicting the clause
that such an add "inserts a level ... and removes exactly the single worst
previously tracked level". -/
theorem C5_counterexample :
    Depth.priceAt (Depth.runOps 2 [.add_bid 10 1, .add_bid 5 1]) 0 = 10 ∧
    Depth.priceAt (Depth.runOps 2 [.add_bid 10 1, .add_bid 5 1]) 1 = 5 ∧
    (5 : Nat) < 10 ∧
    Depth.priceAt
        (Depth.add_bid 2 10 1 (Depth.runOps 2 [.add_bid 10 1, .add_bid 5 1])) 0 =
      10 ∧
    Depth.priceAt
        (Depth.add_bid 2 10 1 (Depth.runOps 2 [.add_bid 10 1, .add_bid 5 1])) 1 =
      5 ∧
    (Depth.levelAt
        (Depth.add_bid 2 10 1 (Depth.runOps 2 [.add_bid 10 1, .add_bid 5 1]))
        0).order_count = 2 := by
  decide

end Liquibook

namespace Liquibook

theorem find_bid_none_inv {p : Nat} {sc : Bool} {run : List DepthLevel}
    (h : find_bid p sc run = none) :
    ∀ x ∈ run, x.price ≠ p ∧
      (sc = true → x.price ≠ INVALID_LEVEL_PRICE ∧ ¬ x.price < p) := by
  induction run with
  | nil => simp
  | cons bid rest ih =>
    simp only [find_bid] at h
    split_ifs at h with h1 h2 h3
    · cases hf : find_bid p sc rest with
      | none =>
        rw [hf] at h
        intro x hx
        rcases List.mem_cons.mp hx with rfl | hx2
        · exact ⟨h1, fun hsc => ⟨fun h0 => h2 ⟨hsc, h0⟩, fun hlt => h3 ⟨hsc, hlt⟩⟩⟩
        · exact ih hf x hx2
      | some trip =>
        obtain ⟨pre, lv, post⟩ := trip
        rw [hf] at h
        simp at h

theorem find_bid_lv_cases {p : Nat} {sc : Bool} {run pre post : List DepthLevel}
    {lv : DepthLevel} (h : find_bid p sc run = some (pre, lv, post)) :
    lv ∈ run ∨ lv = DepthLevel.init p := by
  induction run generalizing pre lv post with
  | nil => simp [find_bid] at h
  | cons bid rest ih =>
    simp only [find_bid] at h
    split_ifs at h with h1 h2 h3
    · simp only [Option.some.injEq, Prod.mk.injEq] at h
      obtain ⟨h4, h5, h6⟩ := h
      subst h5
      exact Or.inl (List.mem_cons_self bid rest)
    · simp only [Option.some.injEq, Prod.mk.injEq] at h
      obtain ⟨h4, h5, h6⟩ := h
      subst h5
      exact Or.inr rfl
    · simp only [Option.some.injEq, Prod.mk.injEq] at h
      obtain ⟨h4, h5, h6⟩ := h
      subst h5
      exact Or.inr rfl
    · cases hf : find_bid p sc rest with
      | none => rw [hf] at h; simp at h
      | some trip =>
        obtain ⟨pre', lv', post'⟩ := trip
        rw [hf] at h
        simp only [Option.some.injEq, Prod.mk.injEq] at h
        obtain ⟨h4, h5, h6⟩ := h
        subst h5
        exact (ih hf).imp (List.mem_cons_of_mem bid) id

theorem add_bid_run_untracked {run : List DepthLevel} {p q : Nat}
    (hun : ∀ x ∈ run, x.price ≠ p)
    (hroom : ∃ x, x ∈ run ∧
      (x.price = INVALID_LEVEL_PRICE ∨ x.price < p)) :
    ∃ pre post, add_bid_run p q run =
        pre ++ (DepthLevel.init p).add_order q :: post ∧
      (∀ x ∈ pre, x.price ≠ p ∧ x.price ≠ INVALID_LEVEL_PRICE ∧
        ¬ x.price < p) ∧
      (∀ x ∈ post, x.price ≠ p) ∧
      (∀ x ∈ pre ++ post, x ∈ run) ∧
      pre.length + (post.length + 1) = run.length := by
  cases hf : find_bid p true run with
  | none =>
    exfalso
    obtain ⟨x, hx, hor⟩ := hroom
    have hcond := find_bid_none_inv hf x hx
    have h2 := hcond.2 rfl
    rcases hor with h3 | h3
    · exact h2.1 h3
    · exact h2.2 h3
  | some trip =>
    obtain ⟨pre, lv, post⟩ := trip
    have hlv : lv = DepthLevel.init p := by
      rcases find_bid_lv_cases hf with hmem | he
      · exact absurd (find_bid_price hf) (hun lv hmem)
      · exact he
    refine ⟨pre, post, ?_, ?_, ?_, find_bid_mem hf, find_bid_length hf⟩
    · unfold add_bid_run
      rw [hf, hlv]
    · intro x hx
      have hc := find_bid_scanned hf x hx
      exact ⟨hc.1, (hc.2 rfl).1, (hc.2 rfl).2⟩
    · intro x hx
      exact hun x (find_bid_mem hf x (List.mem_append_right _ hx))

end Liquibook

namespace Liquibook

/-- C6 (amended in the `N > 1` clause: the shift of the second-best level
into first place holds when 100 is strictly better than every tracked bid,
i.e. when 100 enters at the first slot, as forced by
`C6_counterexample`): from any reachable state with 100 untracked and the
bid run not saturated with better prices, `add_bid(100, 50)` then
`close_bid(100, 50)` returns true; for `SIZE = 1` the bid side is returned
fully to the all-unused state; for `SIZE > 1`, when 100 was added as the
new best bid, the close shifts the run up by one — the level that sat in
the second slot after the add occupies the first slot afterwards, and the
run's last slot becomes blank. -/
theorem C6_round_trip (SIZE : Nat) (hS : 1 ≤ SIZE) (s : List DepthLevel)
    (hreach : Reachable SIZE s)
    (hun : ∀ i, i < SIZE → Depth.priceAt s i ≠ 100)
    (hroom : ∃ i, i < SIZE ∧ (Depth.priceAt s i = INVALID_LEVEL_PRICE ∨
      Depth.priceAt s i < 100)) :
    (Depth.close_bid SIZE 100 50 (Depth.add_bid SIZE 100 50 s)).1 = true ∧
    (SIZE = 1 →
      (Depth.close_bid SIZE 100 50 (Depth.add_bid SIZE 100 50 s)).2 =
        [blankLevel] ++ s.drop SIZE) ∧
    ((∀ i, i < SIZE → Depth.priceAt s i = INVALID_LEVEL_PRICE ∨
        Depth.priceAt s i < 100) →
      (Depth.close_bid SIZE 100 50 (Depth.add_bid SIZE 100 50 s)).2.take SIZE =
          ((Depth.add_bid SIZE 100 50 s).take SIZE).drop 1 ++ [blankLevel] ∧
      (1 < SIZE →
        Depth.levelAt
            (Depth.close_bid SIZE 100 50 (Depth.add_bid SIZE 100 50 s)).2 0 =
          Depth.levelAt (Depth.add_bid SIZE 100 50 s) 1)) := by
  have hlen := (reachable_inv hreach).1
  have htakeS : (s.take SIZE).length = SIZE := length_take_run hlen
  have hun' : ∀ x ∈ s.take SIZE, x.price ≠ 100 := by
    intro x hx
    obtain ⟨j, hj, he⟩ := mem_take_as_priceAt hx
    rw [he]
    exact hun j hj
  have hroom' : ∃ x, x ∈ s.take SIZE ∧
      (x.price = INVALID_LEVEL_PRICE ∨ x.price < 100) := by
    obtain ⟨i, hi, hor⟩ := hroom
    have hi' : i < (s.take SIZE).length := by omega
    refine ⟨(s.take SIZE).getD i blankLevel, ?_, ?_⟩
    · rw [List.getD_eq_getElem _ blankLevel hi']
      exact List.getElem_mem hi'
    · rw [getD_take hi]
      exact hor
  obtain ⟨pre, post, hshape, hpre, hpost, hmem, hlen1⟩ :=
    add_bid_run_untracked (q := 50) hun' hroom'
  have hrl : (add_bid_run 100 50 (s.take SIZE)).length = SIZE := by
    rw [add_bid_run_length]
    exact htakeS
  have hs'take : (Depth.add_bid SIZE 100 50 s).take SIZE =
      pre ++ (DepthLevel.init 100).add_order 50 :: post := by
    unfold Depth.add_bid
    rw [take_append_of_length hrl]
    exact hshape
  have hs'drop : (Depth.add_bid SIZE 100 50 s).drop SIZE = s.drop SIZE := by
    unfold Depth.add_bid
    exact drop_append_of_length hrl
  have hfb : find_bid 100 false ((Depth.add_bid SIZE 100 50 s).take SIZE) =
      some (pre, (DepthLevel.init 100).add_order 50, post) :=
    find_bid_first hs'take rfl
      fun x hx => ⟨(hpre x hx).1, fun hb => absurd hb (by simp)⟩
  have hco : ((DepthLevel.init 100).add_order 50).close_order 50 =
      (true, DepthLevel.mk 100 0 0) := by decide
  have hclose : Depth.close_bid SIZE 100 50 (Depth.add_bid SIZE 100 50 s) =
      (true, (pre ++ post ++ [blankLevel]) ++ s.drop SIZE) := by
    unfold Depth.close_bid
    simp only [close_bid_run, hfb, hco]
    rw [hs'drop]
  refine ⟨by rw [hclose], ?_, ?_⟩
  · intro h1
    subst h1
    rw [htakeS] at hlen1
    have hprenil : pre = [] := by
      apply List.eq_nil_of_length_eq_zero
      omega
    have hpostnil : post = [] := by
      apply List.eq_nil_of_length_eq_zero
      omega
    rw [hclose, hprenil, hpostnil]
    simp
  · intro hbetter
    have hprenil : pre = [] := by
      rcases List.eq_nil_or_concat pre with hnil | ⟨l, x, hconcat⟩
      · exact hnil
      · exfalso
        have hx : x ∈ pre := by rw [hconcat]; simp
        obtain ⟨j, hj, he⟩ := mem_take_as_priceAt
          (hmem x (List.mem_append_left _ hx))
        obtain ⟨hc1, hc2, hc3⟩ := hpre x hx
        rcases hbetter j hj with h0 | h0
        · rw [he] at hc2
          exact hc2 h0
        · rw [he] at hc3
          exact hc3 h0
    subst hprenil
    rw [htakeS] at hlen1
    have hpostlen : post.length + 1 = SIZE := by simpa using hlen1
    have hfinal : (Depth.close_bid SIZE 100 50
        (Depth.add_bid SIZE 100 50 s)).2 = (post ++ [blankLevel]) ++ s.drop SIZE := by
      rw [hclose]
      simp
    constructor
    · rw [hfinal, hs'take]
      rw [take_append_of_length (by simpa using hpostlen)]
      simp
    · intro h2
      have hpostpos : 0 < post.length := by omega
      have hlv1 : Depth.levelAt (Depth.add_bid SIZE 100 50 s) 1 =
          post.getD 0 blankLevel := by
        unfold Depth.levelAt
        rw [← getD_take (show 1 < SIZE from h2), hs'take]
        simp only [List.nil_append]
        rfl
      have hlv0 : Depth.levelAt (Depth.close_bid SIZE 100 50
          (Depth.add_bid SIZE 100 50 s)).2 0 = post.getD 0 blankLevel := by
        unfold Depth.levelAt
        rw [hfinal]
        rw [getD_append_left (by simp), getD_append_left hpostpos]
      rw [hlv0, hlv1]

/-- Witness for C6 at `SIZE = 1` on a fresh instance: the round trip
returns true and restores the all-blank bid side. -/
theorem C6_round_trip_witness :
    (Depth.close_bid 1 100 50 (Depth.add_bid 1 100 50 (Depth.new 1))).1 =
        true ∧
    (Depth.close_bid 1 100 50 (Depth.add_bid 1 100 50 (Depth.new 1))).2 =
      [blankLevel] ++ (Depth.new 1).drop 1 :=
  ⟨(C6_round_trip 1 (by omega) (Depth.new 1) ⟨[], by decide, rfl⟩
      (fun i hi => by interval_cases i; decide)
      ⟨0, by omega, by decide⟩).1,
    (C6_round_trip 1 (by omega) (Depth.new 1) ⟨[], by decide, rfl⟩
      (fun i hi => by interval_cases i; decide)
      ⟨0, by omega, by decide⟩).2.1 rfl⟩

/-- Counterexample to C6 as frozen: on the reachable `Depth<2>` state with
bids `[200, 50]`, price 100 is untracked and the run is not saturated with
better prices, yet after `add_bid(100, 50)` (which makes the run
`[200, 100]`, second-best 100) and `close_bid(100, 50)` (returning true)
the first slot holds 200 — neither the post-add second-best level (100)
nor the pre-add second-best (50) occupies the first slot. -/
theorem C6_counterexample :
    Depth.priceAt (Depth.runOps 2 [.add_bid 200 1, .add_bid 50 1]) 0 = 200 ∧
    Depth.priceAt (Depth.runOps 2 [.add_bid 200 1, .add_bid 50 1]) 1 = 50 ∧
    Depth.priceAt (Depth.add_bid 2 100 50
      (Depth.runOps 2 [.add_bid 200 1, .add_bid 50 1])) 1 = 100 ∧
    (Depth.close_bid 2 100 50 (Depth.add_bid 2 100 50
      (Depth.runOps 2 [.add_bid 200 1, .add_bid 50 1]))).1 = true ∧
    Depth.priceAt (Depth.close_bid 2 100 50 (Depth.add_bid 2 100 50
      (Depth.runOps 2 [.add_bid 200 1, .add_bid 50 1]))).2 0 = 200 ∧
    (200 : Nat) ≠ 100 ∧ (200 : Nat) ≠ 50 := by
  decide

end Liquibook
